import Mathlib

/-!
# Aikido Terraform provider: shallow embedding and verified properties

The development models `internal/provider/provider.go`,
`internal/provider/team_resource.go` and `internal/provider/users_data_source.go`.

Conventions of the embedding.

* Go `int32` values are integers in the range `-2^31 .. 2^31 - 1` (`InInt32`); the
  conversion `int32(x)` of a Go `int` is `toInt32`, the two's complement wrap.  The
  conversion `int(x)` of an `int32` is lossless and therefore the identity.  Go `int`
  (64 bit on the supported platforms) is an unbounded integer: the only arithmetic on
  it is the page counter of `findTeam`, which would need `2^63` remote calls to wrap.
* Go slices are lists.  Where the nil slice is observable, in the model the users
  data source hands to the state, a slice is an optional list and `none` is nil.
* A Go `error` is its message; `nil` is `none`.
* The remote API client (`aikido.Client`) is outside the repository.  It is a
  record of state passing functions over an arbitrary remote state `σ`, so a call
  may depend on and change the remote system.
* The Terraform plugin framework is outside the repository as well.  Its typed
  values (`types.String`, `types.Int32`), its diagnostics and the response a handler
  mutates through a pointer are modelled as plain data: a handler is a function from
  the response it is given to the response it leaves behind.
* `findTeam` loops without a bound, so it takes fuel and returns `none` when the
  fuel runs out; results about termination exhibit the fuel that suffices.
-/

namespace Aikido

/-! ## Machine integers -/

/-- Go conversion `int32(x)` of an `int`: keep the low 32 bits, two's complement. -/
def toInt32 (x : Int) : Int := (x + 2 ^ 31) % 2 ^ 32 - 2 ^ 31

/-- Range of the Go type `int32`. -/
def InInt32 (x : Int) : Prop := -(2 ^ 31) ≤ x ∧ x < 2 ^ 31

instance (x : Int) : Decidable (InInt32 x) := by
  unfold InInt32; infer_instance

/-! ## Framework values (`types.String`, `types.Int32`) -/

/-- Framework `types.String`: null, unknown or a known string. -/
inductive TypesString where
  | null
  | unknown
  | value (s : String)
  deriving DecidableEq, Repr

/-- Framework `types.Int32`: null, unknown or a known `int32`. -/
inductive TypesInt32 where
  | null
  | unknown
  | value (v : Int)
  deriving DecidableEq, Repr

/-- `types.StringValue`. -/
def StringValue (s : String) : TypesString := .value s

/-- `types.Int32Value`. -/
def Int32Value (v : Int) : TypesInt32 := .value v

/-- `IsNull` of a `types.String`. -/
def TypesString.IsNull : TypesString → Bool
  | .null => true
  | _ => false

/-- `IsUnknown` of a `types.String`. -/
def TypesString.IsUnknown : TypesString → Bool
  | .unknown => true
  | _ => false

/-- `ValueString`: the known string, `""` for null and unknown. -/
def TypesString.ValueString : TypesString → String
  | .value s => s
  | _ => ""

/-- `ValueInt32`: the known value, `0` for null and unknown. -/
def TypesInt32.ValueInt32 : TypesInt32 → Int
  | .value v => v
  | _ => 0

/-- `String()` of a `types.String`: a known string is printed with the Go verb `%q`.
`Quote` is that quoting (`strconv.Quote` of the Go runtime), which is outside the
repository. -/
def TypesString.String (Quote : String → String) : TypesString → String
  | .null => "<null>"
  | .unknown => "<unknown>"
  | .value s => Quote s

/-- `String()` of a `types.Int32`. -/
def TypesInt32.String : TypesInt32 → String
  | .null => "<null>"
  | .unknown => "<unknown>"
  | .value v => toString v

/-! ## Diagnostics -/

/-- Severity of a diagnostic. -/
inductive Severity where
  | Error
  | Warning
  deriving DecidableEq, Repr

/-- One diagnostic; `Path` is the attribute path of an attribute diagnostic, as
text. -/
structure Diagnostic where
  Severity : Severity
  Path : Option String
  Summary : String
  Detail : String
  deriving DecidableEq, Repr

/-- `diag.Diagnostics`. -/
abbrev Diagnostics := List Diagnostic

/-- `Diagnostics.HasError`. -/
def HasError (diags : Diagnostics) : Bool :=
  diags.any (fun d => decide (d.Severity = Severity.Error))

/-- `Diagnostics.Append`: a diagnostic already contained is skipped. -/
def Append (diags : Diagnostics) (new : Diagnostics) : Diagnostics :=
  new.foldl (fun acc d => if d ∈ acc then acc else acc ++ [d]) diags

/-- `Diagnostics.AddError`. -/
def AddError (diags : Diagnostics) (summary detail : String) : Diagnostics :=
  Append diags [⟨Severity.Error, none, summary, detail⟩]

/-- `Diagnostics.AddAttributeError` with the path `path.Root(attr)`. -/
def AddAttributeError (diags : Diagnostics) (attr summary detail : String) : Diagnostics :=
  Append diags [⟨Severity.Error, some attr, summary, detail⟩]

/-! ## The remote API client -/

/-- `aikido.Responsibility`. -/
structure Responsibility where
  ID : Int
  Type_ : String
  deriving DecidableEq, Repr

/-- `aikido.Team`. -/
structure Team where
  ID : Int
  Name : String
  Responsibilities : List Responsibility
  deriving DecidableEq, Repr

/-- `aikido.CreateTeamRequest`. -/
structure CreateTeamRequest where
  Name : String
  deriving DecidableEq, Repr

/-- `aikido.UpdateTeamRequest`; `ID` is an `int32`. -/
structure UpdateTeamRequest where
  ID : Int
  Name : String
  Responsibilities : List Responsibility
  deriving DecidableEq, Repr

/-- `aikido.DeleteTeamRequest`; `ID` is an `int32`. -/
structure DeleteTeamRequest where
  ID : Int
  deriving DecidableEq, Repr

/-- `aikido.ListTeamsFilters`; both fields are `int32`. -/
structure ListTeamsFilters where
  Page : Int
  PerPage : Int
  deriving DecidableEq, Repr

/-- Record returned by `ListUsers`. -/
structure AikidoUser where
  ID : Int
  FullName : String
  Email : String
  Active : Int
  LastLoginTimestamp : Int
  Role : String
  AuthType : String
  deriving DecidableEq, Repr

/-- The methods of `aikido.Client` the provider calls, over a remote state `σ`.
`UF` is the type of the user filters, of which only the package constant
`DefaultListUsersFilters` is used.  `UpdateTeam` and `DeleteTeam` return a value
the provider discards, so only their error is kept. -/
structure Client (σ : Type) (UF : Type) where
  CreateTeam : CreateTeamRequest → σ → Except String Int × σ
  UpdateTeam : UpdateTeamRequest → σ → Option String × σ
  DeleteTeam : DeleteTeamRequest → σ → Option String × σ
  ListTeams : ListTeamsFilters → σ → Except String (List Team) × σ
  ListUsers : UF → σ → Except String (List AikidoUser) × σ

/-- A call on the team API, as issued by the team resource. -/
inductive Call where
  | createTeam (req : CreateTeamRequest)
  | updateTeam (req : UpdateTeamRequest)
  | deleteTeam (req : DeleteTeamRequest)
  | listTeams (filters : ListTeamsFilters)
  deriving DecidableEq, Repr

/-- The remote state together with the team API calls issued so far. -/
structure World (σ : Type) where
  remote : σ
  calls : List Call
  deriving DecidableEq

variable {σ UF : Type}

/-- `r.client.CreateTeam(req)`, recorded. -/
def callCreateTeam (c : Client σ UF) (req : CreateTeamRequest) (w : World σ) :
    Except String Int × World σ :=
  ((c.CreateTeam req w.remote).1,
    ⟨(c.CreateTeam req w.remote).2, w.calls ++ [Call.createTeam req]⟩)

/-- `r.client.UpdateTeam(req)`, recorded. -/
def callUpdateTeam (c : Client σ UF) (req : UpdateTeamRequest) (w : World σ) :
    Option String × World σ :=
  ((c.UpdateTeam req w.remote).1,
    ⟨(c.UpdateTeam req w.remote).2, w.calls ++ [Call.updateTeam req]⟩)

/-- `r.client.DeleteTeam(req)`, recorded. -/
def callDeleteTeam (c : Client σ UF) (req : DeleteTeamRequest) (w : World σ) :
    Option String × World σ :=
  ((c.DeleteTeam req w.remote).1,
    ⟨(c.DeleteTeam req w.remote).2, w.calls ++ [Call.deleteTeam req]⟩)

/-- `r.client.ListTeams(filters)`, recorded. -/
def callListTeams (c : Client σ UF) (filters : ListTeamsFilters) (w : World σ) :
    Except String (List Team) × World σ :=
  ((c.ListTeams filters w.remote).1,
    ⟨(c.ListTeams filters w.remote).2, w.calls ++ [Call.listTeams filters]⟩)

/-! ## `findTeam` -/

/-- `teamResource.fetchTeamsAtPage`: one `ListTeams` call with `Page: int32(page)` and
`PerPage: 10`; on an error the teams are the empty slice. -/
def teamResource.fetchTeamsAtPage (c : Client σ UF) (page : Int) (w : World σ) :
    (List Team × Option String) × World σ :=
  match callListTeams c ⟨toInt32 page, 10⟩ w with
  | (Except.error err, w1) => (([], some err), w1)
  | (Except.ok teams, w1) => ((teams, none), w1)

/-- The inner loop of `findTeam`, `for _, team := range teams`, on the two variables
it assigns: at the first team whose ID is `id` it sets `remoteTeam` to that team and
`page` to `-1`, and breaks. -/
def teamResource.findTeam.scan (id : Int) : List Team → Option Team × Int → Option Team × Int
  | [], st => st
  | team :: rest, st =>
    if id = team.ID then (some team, -1) else teamResource.findTeam.scan id rest st

/-- Result triple of `findTeam`: `(*aikido.Team, bool, error)`. -/
structure FindResult where
  team : Option Team
  found : Bool
  err : Option String
  deriving DecidableEq, Repr

/-- The outer loop of `findTeam`, entered with the current `remoteTeam` and `page`;
`none` when the fuel is used up. -/
def teamResource.findTeam.loop (c : Client σ UF) (id : Int) :
    Nat → Option Team → Int → World σ → Option (FindResult × World σ)
  | 0, _, _, _ => none
  | fuel + 1, remoteTeam, page, w =>
    match teamResource.fetchTeamsAtPage c page w with
    | ((_, some err), w1) => some (⟨none, false, some err⟩, w1)
    | ((teams, none), w1) =>
      match teamResource.findTeam.scan id teams (remoteTeam, page) with
      | (remoteTeam1, page1) =>
        if page1 = -1 ∨ teams.length = 0 then
          some (⟨remoteTeam1, remoteTeam1.isSome, none⟩, w1)
        else
          teamResource.findTeam.loop c id fuel remoteTeam1 (page1 + 1) w1

/-- `teamResource.findTeam`: `remoteTeam` starts nil and `page` at 0. -/
def teamResource.findTeam (c : Client σ UF) (id : Int) (fuel : Nat) (w : World σ) :
    Option (FindResult × World σ) :=
  teamResource.findTeam.loop c id fuel none 0 w

/-! ## The team resource -/

/-- `teamResponsibility`. -/
structure teamResponsibility where
  ID : TypesInt32
  Type_ : TypesString
  deriving DecidableEq, Repr

/-- `teamResourceModel`. -/
structure teamResourceModel where
  ID : TypesInt32
  Name : TypesString
  Responsibilities : List teamResponsibility
  deriving DecidableEq, Repr

/-- A plan, state or configuration as a handler reads it: the model that
`Get(ctx, &target)` decodes and the diagnostics that `Get` returns. -/
structure Data (α : Type) where
  value : α
  diags : Diagnostics

/-- `resource.CreateRequest`. -/
structure CreateRequest where
  Plan : Data teamResourceModel

/-- `resource.ReadRequest`. -/
structure ReadRequest where
  State : Data teamResourceModel

/-- `resource.UpdateRequest`. -/
structure UpdateRequest where
  Plan : Data teamResourceModel

/-- `resource.DeleteRequest`. -/
structure DeleteRequest where
  State : Data teamResourceModel

/-- The part of `resource.CreateResponse`, `ReadResponse`, `UpdateResponse` and
`DeleteResponse` the handlers touch: the state (`none` is the null state) and the
diagnostics. -/
structure Response where
  State : Option teamResourceModel
  Diagnostics : Diagnostics
  deriving DecidableEq, Repr

/-- `resp.State.Set(ctx, model)` followed by `resp.Diagnostics.Append(diags...)`:
storing a value of the model type of the schema yields no diagnostics. -/
def Response.Set (resp : Response) (model : teamResourceModel) : Response :=
  { State := some model, Diagnostics := Append resp.Diagnostics [] }

/-- The loop `for _, responsibility := range ...` that appends one
`aikido.Responsibility` per element, with `ID: int(responsibility.ID.ValueInt32())`
and `Type: responsibility.Type.ValueString()`. -/
def toResponsibilities (rs : List teamResponsibility) : List Responsibility :=
  rs.foldl (fun acc responsibility =>
    acc ++ [⟨responsibility.ID.ValueInt32, responsibility.Type_.ValueString⟩]) []

/-- The loop of `Read` and `Update` that rebuilds the responsibilities of the state
from a remote team, with `ID: types.Int32Value(int32(responsibility.ID))`. -/
def fromResponsibilities (rs : List Responsibility) : List teamResponsibility :=
  rs.foldl (fun acc responsibility =>
    acc ++ [⟨Int32Value (toInt32 responsibility.ID), StringValue responsibility.Type_⟩]) []

/-- `teamResourceModel.toUpdateTeamRequest`. -/
def teamResourceModel.toUpdateTeamRequest (t : teamResourceModel) : UpdateTeamRequest :=
  { ID := t.ID.ValueInt32
    Name := t.Name.ValueString
    Responsibilities := toResponsibilities t.Responsibilities }

/-- `teamResource.Create`. -/
def teamResource.Create (c : Client σ UF) (req : CreateRequest) (resp : Response)
    (w : World σ) : Response × World σ :=
  let plan := req.Plan.value
  let resp1 : Response := { resp with Diagnostics := Append resp.Diagnostics req.Plan.diags }
  if HasError resp1.Diagnostics then (resp1, w)
  else
    let createTeamRequest : CreateTeamRequest := { Name := plan.Name.ValueString }
    match callCreateTeam c createTeamRequest w with
    | (Except.error err, w1) =>
      ({ resp1 with Diagnostics := (AddError resp1.Diagnostics "Error creating team"
          ("Could not create team, unexpected error: " ++ err)) }, w1)
    | (Except.ok id, w1) =>
      let updateTeamRequest : UpdateTeamRequest :=
        { ID := id
          Name := createTeamRequest.Name
          Responsibilities := toResponsibilities plan.Responsibilities }
      match callUpdateTeam c updateTeamRequest w1 with
      | (some err, w2) =>
        ({ resp1 with Diagnostics := (AddError resp1.Diagnostics "Error updating team"
            ("Could not update team, unexpected error: " ++ err)) }, w2)
      | (none, w2) =>
        (resp1.Set { plan with ID := Int32Value updateTeamRequest.ID }, w2)

/-- `teamResource.Read`; `none` when `findTeam` runs out of fuel.  A result that is
found without a team, which `findTeam` never returns, would dereference nil and has no
result either.  `Quote` is the quoting of the Go verb `%q`, which `state.Name.String()`
applies. -/
def teamResource.Read (Quote : String → String) (c : Client σ UF) (fuel : Nat)
    (req : ReadRequest) (resp : Response) (w : World σ) : Option (Response × World σ) :=
  let state := req.State.value
  let resp1 : Response := { resp with Diagnostics := Append resp.Diagnostics req.State.diags }
  if HasError resp1.Diagnostics then some (resp1, w)
  else
    match teamResource.findTeam c state.ID.ValueInt32 fuel w with
    | none => none
    | some (⟨_, _, some err⟩, w1) =>
      some ({ resp1 with Diagnostics := (AddError resp1.Diagnostics "Error Reading Team"
          ("Could not find teams from aikido: " ++ err)) }, w1)
    | some (⟨_, false, none⟩, w1) =>
      some ({ resp1 with Diagnostics := (AddError resp1.Diagnostics "Error Reading Team"
          ("Could not find team " ++ state.ID.String ++ "|" ++ state.Name.String Quote ++
            " from aikido. State might need to be cleaned.")) }, w1)
    | some (⟨none, true, none⟩, _) => none
    | some (⟨some remoteTeam, true, none⟩, w1) =>
      some (resp1.Set
        { ID := Int32Value (toInt32 remoteTeam.ID)
          Name := StringValue remoteTeam.Name
          Responsibilities := fromResponsibilities remoteTeam.Responsibilities }, w1)

/-- `teamResource.Update`; `none` when `findTeam` runs out of fuel, and for a result
that is found without a team, as in `Read`. -/
def teamResource.Update (c : Client σ UF) (fuel : Nat) (req : UpdateRequest) (resp : Response)
    (w : World σ) : Option (Response × World σ) :=
  let plan := req.Plan.value
  let resp1 : Response := { resp with Diagnostics := Append resp.Diagnostics req.Plan.diags }
  if HasError resp1.Diagnostics then some (resp1, w)
  else
    let updateRequest := plan.toUpdateTeamRequest
    match callUpdateTeam c updateRequest w with
    | (some err, w1) =>
      some ({ resp1 with Diagnostics := (AddError resp1.Diagnostics "Error Updating team"
          ("Could not update team, unexpected error: " ++ err)) }, w1)
    | (none, w1) =>
      match teamResource.findTeam c plan.ID.ValueInt32 fuel w1 with
      | none => none
      | some (⟨_, _, some err⟩, w2) =>
        some ({ resp1 with Diagnostics := (AddError resp1.Diagnostics "Error Updating Team"
            ("Could not find team from aikido: " ++ err)) }, w2)
      | some (⟨_, false, none⟩, w2) => some (resp1, w2)
      | some (⟨none, true, none⟩, _) => none
      | some (⟨some remoteTeam, true, none⟩, w2) =>
        some (resp1.Set
          { ID := Int32Value (toInt32 remoteTeam.ID)
            Name := StringValue remoteTeam.Name
            Responsibilities := fromResponsibilities remoteTeam.Responsibilities }, w2)

/-- `teamResource.Delete`. -/
def teamResource.Delete (c : Client σ UF) (req : DeleteRequest) (resp : Response)
    (w : World σ) : Response × World σ :=
  let state := req.State.value
  let resp1 : Response := { resp with Diagnostics := Append resp.Diagnostics req.State.diags }
  if HasError resp1.Diagnostics then (resp1, w)
  else
    match callDeleteTeam c { ID := state.ID.ValueInt32 } w with
    | (some err, w1) =>
      ({ resp1 with Diagnostics := (AddError resp1.Diagnostics "Error Deleting Team"
          ("Could not delete team, unexpected error: " ++ err)) }, w1)
    | (none, w1) => (resp1, w1)

/-! ## The provider -/

/-- `AikidoProviderModel`. -/
structure AikidoProviderModel where
  ClientId : TypesString
  ClientSecret : TypesString
  deriving DecidableEq, Repr

/-- `provider.ConfigureRequest`. -/
structure ConfigureRequest where
  Config : Data AikidoProviderModel

/-- `provider.ConfigureResponse`; `K` is the type of the client handle. -/
structure ConfigureResponse (K : Type) where
  Diagnostics : Diagnostics
  DataSourceData : Option K
  ResourceData : Option K

/-- `AikidoProvider.Configure`.  `NewAikidoHttpClient` is the constructor of the client
library and `Getenv` is `os.Getenv` (the empty string for an unset variable). -/
def AikidoProvider.Configure {K : Type} (NewAikidoHttpClient : String → String → K)
    (Getenv : String → String) (req : ConfigureRequest) (resp : ConfigureResponse K) :
    ConfigureResponse K :=
  let data := req.Config.value
  let diags1 := Append resp.Diagnostics req.Config.diags
  if HasError diags1 then { resp with Diagnostics := diags1 }
  else
    let diags2 :=
      if data.ClientId.IsUnknown then
        AddAttributeError diags1 "client_id" "Unknown Aikido API Client Id"
          ("The provider cannot create the Aikido API client as there is an unknown configuration value for the Aikido API client id. " ++
            "Either target apply the source of the value first, set the value statically in the configuration, or use the AIKIDO_CLIENT_ID environment variable.")
      else diags1
    let diags3 :=
      if data.ClientSecret.IsUnknown then
        AddAttributeError diags2 "client_secret" "Unknown Aikido API Client Secret"
          ("The provider cannot create the Aikido API client as there is an unknown configuration value for the Aikido API client secret. " ++
            "Either target apply the source of the value first, set the value statically in the configuration, or use the AIKIDO_CLIENT_SECRET environment variable.")
      else diags2
    if HasError diags3 then { resp with Diagnostics := diags3 }
    else
      let clientId0 := Getenv "AIKIDO_CLIENT_ID"
      let clientSecret0 := Getenv "AIKIDO_CLIENT_SECRET"
      let clientId := if !data.ClientId.IsNull then data.ClientId.ValueString else clientId0
      let clientSecret :=
        if !data.ClientSecret.IsNull then data.ClientSecret.ValueString else clientSecret0
      let diags4 :=
        if clientId = "" then
          AddAttributeError diags3 "client_id" "Missing HashiCups API Client Id"
            ("The provider cannot create the Aikido API client as there is a missing or empty value for the Aikido API client id. " ++
              "Set the client id value in the configuration or use the AIKIDO_CLIENT_ID environment variable. " ++
              "If either is already set, ensure the value is not empty.")
        else diags3
      let diags5 :=
        if clientSecret = "" then
          AddAttributeError diags4 "client_secret" "Missing HashiCups API Client Secret"
            ("The provider cannot create the Aikido API client as there is a missing or empty value for the Aikido API client secret. " ++
              "Set the client secret value in the configuration or use the AIKIDO_CLIENT_SECRET environment variable. " ++
              "If either is already set, ensure the value is not empty.")
        else diags4
      if HasError diags5 then { resp with Diagnostics := diags5 }
      else
        let client := NewAikidoHttpClient clientId clientSecret
        { Diagnostics := diags5, DataSourceData := some client, ResourceData := some client }

/-! ## The users data source -/

/-- `User`, the struct of the data source model; `ID`, `Active` and
`LastLoginTimestamp` are Go `int`. -/
structure User where
  ID : Int
  FullName : String
  Email : String
  Active : Int
  LastLoginTimestamp : Int
  Role : String
  AuthType : String
  deriving DecidableEq, Repr

/-- `UsersDataSourceModel`; `Users` is a Go slice and `none` is the nil slice. -/
structure UsersDataSourceModel where
  Users : Option (List User)
  deriving DecidableEq, Repr

/-- Go `append(slice, x)`: appending to the nil slice gives a slice of one element. -/
def goAppend {α : Type} : Option (List α) → α → Option (List α)
  | none, x => some [x]
  | some xs, x => some (xs ++ [x])

/-- The `users` attribute of the stored state: null, or a list of objects.  In the
schema `id`, `active` and `last_login_timestamp` are `Int32Attribute`, so a stored
object holds `int32` values in these fields. -/
inductive UsersAttribute where
  | null
  | list (users : List User)
  deriving DecidableEq, Repr

/-- The stored state of the data source. -/
structure UsersState where
  users : UsersAttribute
  deriving DecidableEq, Repr

/-- The objects of the `users` attribute; null holds none. -/
def UsersAttribute.entries : UsersAttribute → List User
  | .null => []
  | .list users => users

/-- The part of `datasource.ReadResponse` the handler touches. -/
structure UsersReadResponse where
  State : Option UsersState
  Diagnostics : Diagnostics
  deriving DecidableEq, Repr

/-- A `User` can be stored under the schema: its three `int` fields are in the range
of `int32`. -/
def User.fitsSchema (u : User) : Bool :=
  decide (InInt32 u.ID) && decide (InInt32 u.Active) && decide (InInt32 u.LastLoginTimestamp)

/-- The first element, from index `i` on, that cannot be stored under the schema. -/
def firstMisfit : Nat → List User → Option (Nat × User)
  | _, [] => none
  | i, u :: rest => if u.fitsSchema then firstMisfit (i + 1) rest else some (i, u)

/-- `resp.State.Set(ctx, &state)` followed by `resp.Diagnostics.Append(diags...)`.
The framework converts the model by reflection: a nil slice becomes the null list, a
slice becomes a list, element by element in index order, and an `int` outside the
range of `int32` stops the conversion with the attribute error `Value Conversion
Error`, in which case the state is not written.  `Describe i u` is the path and the
detail text the framework gives for element `i`. -/
def UsersReadResponse.Set (Describe : Nat → User → String × String)
    (resp : UsersReadResponse) (state : UsersDataSourceModel) : UsersReadResponse :=
  match state.Users with
  | none => { State := some ⟨UsersAttribute.null⟩, Diagnostics := Append resp.Diagnostics [] }
  | some users =>
    match firstMisfit 0 users with
    | none =>
      { State := some ⟨UsersAttribute.list users⟩, Diagnostics := Append resp.Diagnostics [] }
    | some (i, u) =>
      { resp with Diagnostics := (Append resp.Diagnostics
          [⟨Severity.Error, some (Describe i u).1, "Value Conversion Error",
            (Describe i u).2⟩]) }

/-- `UsersDataSource.Read`; `DefaultListUsersFilters` is the constant of the client
library.  `state.Users` starts as the nil slice and gets one `User` appended per
returned record. -/
def UsersDataSource.Read (Describe : Nat → User → String × String) (c : Client σ UF)
    (DefaultListUsersFilters : UF) (resp : UsersReadResponse) (s : σ) :
    UsersReadResponse × σ :=
  match c.ListUsers DefaultListUsersFilters s with
  | (Except.error err, s1) =>
    ({ resp with Diagnostics := (AddError resp.Diagnostics "Unable to Read Aikido Users" err) }, s1)
  | (Except.ok users, s1) =>
    let state : UsersDataSourceModel :=
      { Users := users.foldl (fun acc user =>
          goAppend acc { ID := user.ID
                         FullName := user.FullName
                         Email := user.Email
                         Active := user.Active
                         LastLoginTimestamp := user.LastLoginTimestamp
                         Role := user.Role
                         AuthType := user.AuthType }) none }
    (resp.Set Describe state, s1)

/-! ## Vocabulary of the statements -/

/-- Remote state after a scan that starts in `s` has fetched the pages `0 .. n - 1`. -/
def remoteAfter (c : Client σ UF) (s : σ) : Nat → σ
  | 0 => s
  | n + 1 => (c.ListTeams ⟨toInt32 n, 10⟩ (remoteAfter c s n)).2

/-- What the remote answers for page `n` in a scan that starts in `s`: the page-fetch
function as `findTeam` observes it. -/
def pageAt (c : Client σ UF) (s : σ) (n : Nat) : Except String (List Team) :=
  (c.ListTeams ⟨toInt32 n, 10⟩ (remoteAfter c s n)).1

/-- The `ListTeams` calls for the pages `0 .. k`, in ascending order. -/
def pageCalls (k : Nat) : List Call :=
  (List.range (k + 1)).map (fun (p : Nat) => Call.listTeams ⟨toInt32 (p : Int), 10⟩)

/-- Page `p` (from 0) of a list served in pages of 10: the items `10 p .. 10 p + 9`,
empty past the end. -/
def pageOf (all : List Team) (p : Nat) : List Team :=
  (all.drop (10 * p)).take 10

/-- The credential the specification asks for: the explicit configuration value when
it is not null, the environment variable otherwise. -/
def resolvedCredential (explicit : TypesString) (fromEnv : String) : String :=
  match explicit with
  | .null => fromEnv
  | v => v.ValueString

/-- The text `hay` names `needle`: `needle` occurs in it. -/
def Mentions (needle hay : String) : Prop :=
  ∃ before after : String, hay = before ++ needle ++ after

/-- The state of a team equals the remote representation of the team, as the
specification words it: same id and name, responsibilities of the same length and the
id and type of each element equal to those of the remote element. -/
def EqualsRemote (state : teamResourceModel) (remote : Team) : Prop :=
  state.ID = TypesInt32.value remote.ID ∧
  state.Name = TypesString.value remote.Name ∧
  state.Responsibilities.length = remote.Responsibilities.length ∧
  ∀ (i : Nat) (h1 : i < state.Responsibilities.length)
    (h2 : i < remote.Responsibilities.length),
    (state.Responsibilities.get ⟨i, h1⟩).ID =
        TypesInt32.value (remote.Responsibilities.get ⟨i, h2⟩).ID ∧
    (state.Responsibilities.get ⟨i, h1⟩).Type_ =
        TypesString.value (remote.Responsibilities.get ⟨i, h2⟩).Type_

/-- The state of a team agrees with a remote team within the width of the identifiers
of the schema: same id and name, responsibilities of the same length, the type of each
element equal, and the id of each element equal to the remote one whenever that lies
in the range of `int32`. -/
def AgreesWith (state : teamResourceModel) (remote : Team) : Prop :=
  state.ID = TypesInt32.value remote.ID ∧
  state.Name = TypesString.value remote.Name ∧
  state.Responsibilities.length = remote.Responsibilities.length ∧
  ∀ (i : Nat) (h1 : i < state.Responsibilities.length)
    (h2 : i < remote.Responsibilities.length),
    (InInt32 (remote.Responsibilities.get ⟨i, h2⟩).ID →
      (state.Responsibilities.get ⟨i, h1⟩).ID =
        TypesInt32.value (remote.Responsibilities.get ⟨i, h2⟩).ID) ∧
    (state.Responsibilities.get ⟨i, h1⟩).Type_ =
        TypesString.value (remote.Responsibilities.get ⟨i, h2⟩).Type_

/-- The state `Read` and `Update` write for a remote team. -/
def stateOf (remoteTeam : Team) : teamResourceModel :=
  { ID := Int32Value (toInt32 remoteTeam.ID)
    Name := StringValue remoteTeam.Name
    Responsibilities := fromResponsibilities remoteTeam.Responsibilities }

/-- The pages `n .. k - 1` of a scan all come back without error, non-empty and
without a team whose ID is `id`. -/
def Passes (c : Client σ UF) (s : σ) (id : Int) (n k : Nat) : Prop :=
  ∀ j, n ≤ j → j < k →
    ∃ ts, pageAt c s j = Except.ok ts ∧ ts ≠ [] ∧ ∀ t ∈ ts, t.ID ≠ id

/-- Page `k` ends the scan with the result `res`: it is an error, or it holds a team
with the ID (the first such team is returned), or it is empty. -/
def Stops (c : Client σ UF) (s : σ) (id : Int) (k : Nat) (res : FindResult) : Prop :=
  (∃ err, pageAt c s k = Except.error err ∧ res = ⟨none, false, some err⟩) ∨
  (∃ ts, pageAt c s k = Except.ok ts ∧
    ((∃ t, ts.find? (fun t => decide (id = t.ID)) = some t ∧ res = ⟨some t, true, none⟩) ∨
      (ts = [] ∧ res = ⟨none, false, none⟩)))

/-! ## A remote kept in memory, for concrete runs -/

/-- Two user records, for concrete runs of the users data source. -/
def demoUsers : List AikidoUser :=
  [⟨1, "Ada Lovelace", "ada@example.com", 1, 1700000000, "admin", "sso"⟩,
    ⟨2, "Alan Turing", "alan@example.com", 0, 0, "default", "password"⟩]

/-- A user record whose last login lies after January 2038: the timestamp is above
`2^31 - 1`. -/
def lateUser : AikidoUser :=
  ⟨3, "Grace Hopper", "grace@example.com", 1, 3000000000, "admin", "sso"⟩

/-- A remote whose only user is `lateUser`. -/
def lateLoginClient : Client Unit Unit where
  CreateTeam := fun _ s => (Except.ok 1, s)
  UpdateTeam := fun _ s => (none, s)
  DeleteTeam := fun _ s => (none, s)
  ListTeams := fun _ s => (Except.ok [], s)
  ListUsers := fun _ s => (Except.ok [lateUser], s)

/-- The path and detail of the framework for the timestamp of `lateUser`. -/
def lateDescribe (_ : Nat) (_ : User) : String × String :=
  ("users[0].last_login_timestamp",
    "Value 3e+09 cannot be represented as a 32-bit integer.")

/-- The responsibility types the remote accepts. -/
def responsibilityTypes : List String :=
  ["code_repository", "container_repository", "cloud", "domain"]

/-- A remote that keeps its teams in a list and serves page `p` (from 0) as the items
`perPage * p .. perPage * p + perPage - 1`.  A created team gets the identifier
`100 + number of teams`; an empty name, an update or a delete of a team that does not
exist, and a responsibility of an unlisted type are refused. -/
def memClient : Client (List Team) Unit where
  CreateTeam := fun req ts =>
    if req.Name = "" then (Except.error "name must not be empty", ts)
    else (Except.ok (100 + ts.length), ts ++ [⟨100 + ts.length, req.Name, []⟩])
  UpdateTeam := fun req ts =>
    if ts.all (fun t => decide (t.ID ≠ req.ID)) then (some "team not found", ts)
    else if req.Responsibilities.all (fun r => decide (r.Type_ ∈ responsibilityTypes)) then
      (none, ts.map (fun t =>
        if t.ID = req.ID then ⟨t.ID, req.Name, req.Responsibilities⟩ else t))
    else (some "invalid responsibility type", ts)
  DeleteTeam := fun req ts =>
    if ts.all (fun t => decide (t.ID ≠ req.ID)) then (some "team not found", ts)
    else (none, ts.filter (fun t => decide (t.ID ≠ req.ID)))
  ListTeams := fun f ts =>
    (Except.ok ((ts.drop (f.PerPage.toNat * f.Page.toNat)).take f.PerPage.toNat), ts)
  ListUsers := fun _ ts => (Except.ok demoUsers, ts)

/-- A remote that accepts every update and lists no team and no user. -/
def emptyClient : Client Unit Unit where
  CreateTeam := fun _ s => (Except.ok 1, s)
  UpdateTeam := fun _ s => (none, s)
  DeleteTeam := fun _ s => (none, s)
  ListTeams := fun _ s => (Except.ok [], s)
  ListUsers := fun _ s => (Except.ok [], s)

/-- A remote that applies every update to the teams it keeps and whose listing lags
behind: it lists no team. -/
def laggingClient : Client (List Team) Unit where
  CreateTeam := fun req ts =>
    (Except.ok (100 + ts.length), ts ++ [⟨100 + ts.length, req.Name, []⟩])
  UpdateTeam := fun req ts =>
    (none, ts.map (fun t =>
      if t.ID = req.ID then ⟨t.ID, req.Name, req.Responsibilities⟩ else t))
  DeleteTeam := fun req ts => (none, ts.filter (fun t => decide (t.ID ≠ req.ID)))
  ListTeams := fun _ ts => (Except.ok [], ts)
  ListUsers := fun _ ts => (Except.ok [], ts)

/-- Twelve teams with the identifiers `0 .. 11`: two pages of 10. -/
def demoTeams : List Team :=
  (List.range 12).map (fun (i : Nat) => ⟨(i : Int), "team", []⟩)

/-- The remote of `demoTeams` before any call. -/
def demoWorld : World (List Team) := ⟨demoTeams, []⟩

/-- A remote team one of whose responsibilities has the identifier `2^31`, which a Go
`int` holds and an `int32` does not. -/
def wideTeam : Team := ⟨7, "core", [⟨2147483648, "cloud"⟩]⟩

/-- The quoting of `%q` on a text without quotes, backslashes and unprintable
characters: the text between double quotes. -/
def plainQuote (s : String) : String := "\"" ++ s ++ "\""

/-- An environment in which only `AIKIDO_CLIENT_ID` is set. -/
def demoEnv (name : String) : String :=
  if name = "AIKIDO_CLIENT_ID" then "id-from-env" else ""

/-! ## Lemmas on diagnostics -/

theorem Append_nil (diags : Diagnostics) : Append diags [] = diags := rfl

theorem Append_cons (diags : Diagnostics) (d : Diagnostic) (new : Diagnostics) :
    Append diags (d :: new) = Append (if d ∈ diags then diags else diags ++ [d]) new := rfl

theorem HasError_Append (diags new : Diagnostics) :
    HasError (Append diags new) = (HasError diags || HasError new) := by
  induction new generalizing diags with
  | nil => simp [Append_nil, HasError]
  | cons d new ih =>
    rw [Append_cons, ih]
    by_cases hmem : d ∈ diags
    · by_cases hd : d.Severity = Severity.Error
      · have h1 : HasError diags = true := by
          simp only [HasError, List.any_eq_true]
          exact ⟨d, hmem, by simp [hd]⟩
        simp [hmem, h1]
      · simp [hmem, HasError, hd]
    · simp only [if_neg hmem]
      simp [HasError, Bool.or_assoc]

theorem mem_Append_left (diags new : Diagnostics) (d : Diagnostic) (h : d ∈ diags) :
    d ∈ Append diags new := by
  induction new generalizing diags with
  | nil => exact h
  | cons x new ih =>
    rw [Append_cons]
    apply ih
    by_cases hx : x ∈ diags
    · simpa [hx] using h
    · simp [hx, h]

theorem mem_Append_right (diags new : Diagnostics) (d : Diagnostic) (h : d ∈ new) :
    d ∈ Append diags new := by
  induction new generalizing diags with
  | nil => cases h
  | cons x new ih =>
    rw [Append_cons]
    rcases List.mem_cons.mp h with rfl | h2
    · apply mem_Append_left
      by_cases hx : d ∈ diags
      · simp [hx]
      · simp [hx]
    · exact ih _ h2

theorem HasError_AddError (diags : Diagnostics) (summary detail : String) :
    HasError (AddError diags summary detail) = true := by
  rw [AddError, HasError_Append]
  simp [HasError]

theorem HasError_AddAttributeError (diags : Diagnostics) (attr summary detail : String) :
    HasError (AddAttributeError diags attr summary detail) = true := by
  rw [AddAttributeError, HasError_Append]
  simp [HasError]

theorem mem_AddAttributeError (diags : Diagnostics) (attr summary detail : String) :
    (⟨Severity.Error, some attr, summary, detail⟩ : Diagnostic) ∈
      AddAttributeError diags attr summary detail :=
  mem_Append_right _ _ _ (List.mem_singleton.mpr rfl)

theorem mem_AddAttributeError_of_mem (diags : Diagnostics) (attr summary detail : String)
    (d : Diagnostic) (h : d ∈ diags) : d ∈ AddAttributeError diags attr summary detail :=
  mem_Append_left _ _ _ h

/-! ## Lemmas on `findTeam` -/

theorem scan_eq_find (id : Int) (teams : List Team) (st : Option Team × Int) :
    teamResource.findTeam.scan id teams st =
      match teams.find? (fun t => decide (id = t.ID)) with
      | some t => (some t, -1)
      | none => st := by
  induction teams with
  | nil => simp [teamResource.findTeam.scan]
  | cons t rest ih =>
    by_cases h : id = t.ID
    · simp [teamResource.findTeam.scan, h]
    · simp [teamResource.findTeam.scan, h, ih]

/-- The world after one more `ListTeams` call for page `n`. -/
theorem loop_error (c : Client σ UF) (id : Int) (fuel : Nat) (rt : Option Team) (page : Int)
    (w : World σ) (err : String)
    (h : (c.ListTeams ⟨toInt32 page, 10⟩ w.remote).1 = Except.error err) :
    teamResource.findTeam.loop c id (fuel + 1) rt page w =
      some (⟨none, false, some err⟩,
        ⟨(c.ListTeams ⟨toInt32 page, 10⟩ w.remote).2,
          w.calls ++ [Call.listTeams ⟨toInt32 page, 10⟩]⟩) := by
  simp [teamResource.findTeam.loop, teamResource.fetchTeamsAtPage, callListTeams, h]

theorem loop_hit (c : Client σ UF) (id : Int) (fuel : Nat) (rt : Option Team) (page : Int)
    (w : World σ) (ts : List Team) (t : Team)
    (h : (c.ListTeams ⟨toInt32 page, 10⟩ w.remote).1 = Except.ok ts)
    (ht : ts.find? (fun t => decide (id = t.ID)) = some t) :
    teamResource.findTeam.loop c id (fuel + 1) rt page w =
      some (⟨some t, true, none⟩,
        ⟨(c.ListTeams ⟨toInt32 page, 10⟩ w.remote).2,
          w.calls ++ [Call.listTeams ⟨toInt32 page, 10⟩]⟩) := by
  simp [teamResource.findTeam.loop, teamResource.fetchTeamsAtPage, callListTeams, h, scan_eq_find, ht]

theorem loop_empty (c : Client σ UF) (id : Int) (fuel : Nat) (rt : Option Team) (page : Int)
    (w : World σ)
    (h : (c.ListTeams ⟨toInt32 page, 10⟩ w.remote).1 = Except.ok []) :
    teamResource.findTeam.loop c id (fuel + 1) rt page w =
      some (⟨rt, rt.isSome, none⟩,
        ⟨(c.ListTeams ⟨toInt32 page, 10⟩ w.remote).2,
          w.calls ++ [Call.listTeams ⟨toInt32 page, 10⟩]⟩) := by
  simp [teamResource.findTeam.loop, teamResource.fetchTeamsAtPage, callListTeams, h, teamResource.findTeam.scan]

theorem loop_pass (c : Client σ UF) (id : Int) (fuel : Nat) (rt : Option Team) (n : Nat)
    (w : World σ) (ts : List Team)
    (h : (c.ListTeams ⟨toInt32 n, 10⟩ w.remote).1 = Except.ok ts)
    (hne : ts ≠ []) (hno : ∀ t ∈ ts, t.ID ≠ id) :
    teamResource.findTeam.loop c id (fuel + 1) rt n w =
      teamResource.findTeam.loop c id fuel rt ((n : Int) + 1)
        ⟨(c.ListTeams ⟨toInt32 n, 10⟩ w.remote).2,
          w.calls ++ [Call.listTeams ⟨toInt32 n, 10⟩]⟩ := by
  have hf : ts.find? (fun t => decide (id = t.ID)) = none := by
    rw [List.find?_eq_none]
    intro t ht
    have := hno t ht
    simpa using fun h => this h.symm
  have hlen : ts.length ≠ 0 := by
    simpa [List.length_eq_zero] using hne
  have hn : ¬ ((n : Int) = -1) := by omega
  simp [teamResource.findTeam.loop, teamResource.fetchTeamsAtPage, callListTeams, h, scan_eq_find, hf, hn, hne]

theorem pageCalls_eq (k : Nat) :
    pageCalls k =
      (List.range' 0 (k + 1)).map (fun (p : Nat) => Call.listTeams ⟨toInt32 (p : Int), 10⟩) := by
  simp [pageCalls, List.range_eq_range']

theorem pageCalls_succ (k : Nat) :
    pageCalls k =
      (List.range' 0 k).map (fun (p : Nat) => Call.listTeams ⟨toInt32 (p : Int), 10⟩) ++
        [Call.listTeams ⟨toInt32 (k : Int), 10⟩] := by
  rw [pageCalls_eq, List.range'_concat]
  simp

theorem remoteAfter_succ (c : Client σ UF) (s : σ) (n : Nat) :
    remoteAfter c s (n + 1) = (c.ListTeams ⟨toInt32 (n : Int), 10⟩ (remoteAfter c s n)).2 := rfl

/-- While the pages pass, the loop only fetches: `d` passing pages from page `n` on use
up `d` units of fuel and leave the loop at page `n + d`. -/
theorem loop_skip (c : Client σ UF) (s : σ) (id : Int) (d : Nat) :
    ∀ (n : Nat) (calls : List Call) (fuel : Nat) (rt : Option Team),
      Passes c s id n (n + d) →
      teamResource.findTeam.loop c id (d + fuel) rt (n : Int) ⟨remoteAfter c s n, calls⟩ =
        teamResource.findTeam.loop c id fuel rt ((n + d : Nat) : Int)
          ⟨remoteAfter c s (n + d),
            calls ++ (List.range' n d).map
              (fun (p : Nat) => Call.listTeams ⟨toInt32 (p : Int), 10⟩)⟩ := by
  induction d with
  | zero => intro n calls fuel rt _; simp
  | succ d ih =>
    intro n calls fuel rt hp
    obtain ⟨ts, hts, hne, hno⟩ := hp n (le_refl n) (by omega)
    have hstep := loop_pass c id (d + fuel) rt n ⟨remoteAfter c s n, calls⟩ ts hts hne hno
    have hfuel : d + 1 + fuel = (d + fuel) + 1 := by omega
    rw [hfuel, hstep]
    have hp2 : Passes c s id (n + 1) (n + 1 + d) := by
      intro j h1 h2
      exact hp j (by omega) (by omega)
    have h := ih (n + 1) (calls ++ [Call.listTeams ⟨toInt32 (n : Int), 10⟩]) fuel rt hp2
    have hcast : ((n : Int) + 1) = ((n + 1 : Nat) : Int) := by push_cast; rfl
    rw [hcast]
    rw [remoteAfter_succ] at h
    rw [h]
    have h3 : n + 1 + d = n + (d + 1) := by omega
    rw [h3, List.range'_succ, List.map_cons, List.append_assoc]
    rfl

/-- A scan whose pages `0 .. k - 1` pass and whose page `k` stops with `res` returns
`res` for every fuel above `k`, after exactly the calls for the pages `0 .. k`. -/
theorem findTeam_complete (c : Client σ UF) (id : Int) (w : World σ) (k : Nat)
    (res : FindResult) (hp : Passes c w.remote id 0 k) (hs : Stops c w.remote id k res)
    (fuel : Nat) (hfuel : k < fuel) :
    teamResource.findTeam c id fuel w =
      some (res, ⟨remoteAfter c w.remote (k + 1), w.calls ++ pageCalls k⟩) := by
  obtain ⟨f, rfl⟩ : ∃ f, fuel = k + (f + 1) := ⟨fuel - k - 1, by omega⟩
  have hp0 : Passes c w.remote id 0 (0 + k) := by simpa using hp
  have h := loop_skip c w.remote id k 0 w.calls (f + 1) none hp0
  have hw : teamResource.findTeam c id (k + (f + 1)) w =
      teamResource.findTeam.loop c id (k + (f + 1)) none ((0 : Nat) : Int) ⟨remoteAfter c w.remote 0, w.calls⟩ := rfl
  rw [hw, h, Nat.zero_add, pageCalls_succ, remoteAfter_succ, ← List.append_assoc]
  rcases hs with ⟨err, he, rfl⟩ | ⟨ts, hts, ⟨t, ht, rfl⟩ | ⟨rfl, rfl⟩⟩
  · exact loop_error c id f none k ⟨remoteAfter c w.remote k, _⟩ err he
  · exact loop_hit c id f none k ⟨remoteAfter c w.remote k, _⟩ ts t hts ht
  · exact loop_empty c id f none k ⟨remoteAfter c w.remote k, _⟩ hts

/-- Every result of the loop comes from a scan of passing pages ended by a page that
stops. -/
theorem loop_sound (c : Client σ UF) (s : σ) (id : Int) (fuel : Nat) :
    ∀ (n : Nat) (calls : List Call) (res : FindResult) (w1 : World σ),
      teamResource.findTeam.loop c id fuel none (n : Int) ⟨remoteAfter c s n, calls⟩ = some (res, w1) →
      ∃ k, n ≤ k ∧ k < n + fuel ∧ Passes c s id n k ∧ Stops c s id k res ∧
        w1 = ⟨remoteAfter c s (k + 1),
          calls ++ (List.range' n (k + 1 - n)).map
            (fun (p : Nat) => Call.listTeams ⟨toInt32 (p : Int), 10⟩)⟩ := by
  induction fuel with
  | zero => intro n calls res w1 h; simp [teamResource.findTeam.loop] at h
  | succ fuel ih =>
    intro n calls res w1 h
    have hone : n + 1 - n = 1 := by omega
    have hnone : Passes c s id n n := fun j h1 h2 => absurd h2 (by omega)
    cases hpage : pageAt c s n with
    | error err =>
      rw [loop_error c id fuel none n ⟨remoteAfter c s n, calls⟩ err hpage] at h
      simp only [Option.some.injEq, Prod.mk.injEq] at h
      refine ⟨n, le_refl n, by omega, hnone, Or.inl ⟨err, hpage, h.1.symm⟩, ?_⟩
      rw [← h.2, hone]; rfl
    | ok ts =>
      cases hfind : ts.find? (fun t => decide (id = t.ID)) with
      | some t =>
        rw [loop_hit c id fuel none n ⟨remoteAfter c s n, calls⟩ ts t hpage hfind] at h
        simp only [Option.some.injEq, Prod.mk.injEq] at h
        refine ⟨n, le_refl n, by omega, hnone,
          Or.inr ⟨ts, hpage, Or.inl ⟨t, hfind, h.1.symm⟩⟩, ?_⟩
        rw [← h.2, hone]; rfl
      | none =>
        by_cases hne : ts = []
        · subst hne
          rw [loop_empty c id fuel none n ⟨remoteAfter c s n, calls⟩ hpage] at h
          simp only [Option.some.injEq, Prod.mk.injEq] at h
          refine ⟨n, le_refl n, by omega, hnone,
            Or.inr ⟨[], hpage, Or.inr ⟨rfl, h.1.symm⟩⟩, ?_⟩
          rw [← h.2, hone]; rfl
        · have hno : ∀ t ∈ ts, t.ID ≠ id := by
            intro t ht heq
            have := List.find?_eq_none.mp hfind t ht
            simp [heq] at this
          rw [loop_pass c id fuel none n ⟨remoteAfter c s n, calls⟩ ts hpage hne hno] at h
          have hcast : ((n : Int) + 1) = ((n + 1 : Nat) : Int) := by push_cast; rfl
          rw [hcast] at h
          obtain ⟨k, hk1, hk2, hp, hs, hw⟩ :=
            ih (n + 1) (calls ++ [Call.listTeams ⟨toInt32 (n : Int), 10⟩]) res w1 h
          refine ⟨k, by omega, by omega, ?_, hs, ?_⟩
          · intro j h1 h2
            by_cases hj : j = n
            · subst hj; exact ⟨ts, hpage, hne, hno⟩
            · exact hp j (by omega) h2
          · rw [hw]
            have h3 : k + 1 - n = (k + 1 - (n + 1)) + 1 := by omega
            rw [h3, List.range'_succ, List.map_cons, List.append_assoc]
            rfl

/-- Every result of `findTeam` comes from a scan of passing pages `0 .. k - 1` ended
by a page `k` that stops, and leaves exactly the calls for the pages `0 .. k`. -/
theorem findTeam_sound (c : Client σ UF) (id : Int) (fuel : Nat) (w : World σ)
    (res : FindResult) (w1 : World σ) (h : teamResource.findTeam c id fuel w = some (res, w1)) :
    ∃ k, k < fuel ∧ Passes c w.remote id 0 k ∧ Stops c w.remote id k res ∧
      w1 = ⟨remoteAfter c w.remote (k + 1), w.calls ++ pageCalls k⟩ := by
  have hw : teamResource.findTeam c id fuel w =
      teamResource.findTeam.loop c id fuel none ((0 : Nat) : Int) ⟨remoteAfter c w.remote 0, w.calls⟩ := rfl
  rw [hw] at h
  obtain ⟨k, _, hk, hp, hs, hw1⟩ := loop_sound c w.remote id fuel 0 w.calls res w1 h
  refine ⟨k, by omega, hp, hs, ?_⟩
  rw [hw1, pageCalls_eq]
  simp

/-- Among pages that all answer without error, below a page that is empty or holds
the ID, there is a first page at which the scan stops. -/
theorem exists_stop (c : Client σ UF) (s : σ) (id : Int) (K : Nat)
    (hok : ∀ j, j ≤ K → ∃ ts, pageAt c s j = Except.ok ts)
    (hK : ∃ ts, pageAt c s K = Except.ok ts ∧ (ts = [] ∨ ∃ t ∈ ts, t.ID = id)) :
    ∃ k res, k ≤ K ∧ Passes c s id 0 k ∧ Stops c s id k res ∧ res.err = none ∧
      ((∃ ts, pageAt c s k = Except.ok ts ∧ ts ≠ []) → res.found = true) ∧
      ((∀ j, j < K → ∃ ts, pageAt c s j = Except.ok ts ∧ ts ≠ [] ∧ ∀ t ∈ ts, t.ID ≠ id) →
        k = K) := by
  classical
  let P : Nat → Prop := fun j =>
    ∃ ts, pageAt c s j = Except.ok ts ∧ (ts = [] ∨ ∃ t ∈ ts, t.ID = id)
  have hex : ∃ j, P j := ⟨K, hK⟩
  have hle : Nat.find hex ≤ K := Nat.find_min' hex hK
  have hpass : Passes c s id 0 (Nat.find hex) := by
    intro j _ hj
    obtain ⟨ts, hts⟩ := hok j (by omega)
    have hnot : ¬ P j := Nat.find_min hex hj
    refine ⟨ts, hts, ?_, ?_⟩
    · intro he; exact hnot ⟨ts, hts, Or.inl he⟩
    · intro t ht he; exact hnot ⟨ts, hts, Or.inr ⟨t, ht, he⟩⟩
  obtain ⟨ts, hts, hcase⟩ := Nat.find_spec hex
  have hlast : ∀ j, j < K →
      (∃ ts, pageAt c s j = Except.ok ts ∧ ts ≠ [] ∧ ∀ t ∈ ts, t.ID ≠ id) → ¬ P j := by
    rintro j _ ⟨tj, htj, hne, hno⟩ ⟨tj2, htj2, hc⟩
    rw [htj] at htj2
    cases htj2
    rcases hc with he | ⟨t, ht, hid⟩
    · exact hne he
    · exact hno t ht hid
  have hK2 : (∀ j, j < K → ∃ ts, pageAt c s j = Except.ok ts ∧ ts ≠ [] ∧ ∀ t ∈ ts, t.ID ≠ id) →
      Nat.find hex = K := by
    intro hall
    by_contra hneq
    exact hlast _ (by omega) (hall _ (by omega)) (Nat.find_spec hex)
  cases hfind : ts.find? (fun t => decide (id = t.ID)) with
  | some t =>
    refine ⟨Nat.find hex, ⟨some t, true, none⟩, hle, hpass,
      Or.inr ⟨ts, hts, Or.inl ⟨t, hfind, rfl⟩⟩, rfl, fun _ => rfl, hK2⟩
  | none =>
    have hno : ∀ t ∈ ts, t.ID ≠ id := by
      intro t ht heq
      have := List.find?_eq_none.mp hfind t ht
      simp [heq] at this
    have hempty : ts = [] := by
      rcases hcase with he | ⟨t, ht, hid⟩
      · exact he
      · exact absurd hid (hno t ht)
    subst hempty
    refine ⟨Nat.find hex, ⟨none, false, none⟩, hle, hpass,
      Or.inr ⟨[], hts, Or.inr ⟨rfl, rfl⟩⟩, rfl, ?_, hK2⟩
    rintro ⟨ts2, hts2, hne2⟩
    rw [hts] at hts2
    cases hts2
    exact absurd rfl hne2

/-- The remote kept in memory is not changed by listing. -/
theorem remoteAfter_memClient (ts : List Team) (n : Nat) : remoteAfter memClient ts n = ts := by
  induction n with
  | zero => rfl
  | succ n ih => rw [remoteAfter_succ, ih]; rfl

/-- The remote kept in memory serves every page below `2^31` as the specification describes
a paged remote: page `p` of the scan is `pageOf ts p`. -/
theorem pageAt_memClient (ts : List Team) (p : Nat) (hp : p < 2 ^ 31) :
    pageAt memClient ts p = Except.ok (pageOf ts p) := by
  have h32 : toInt32 (p : Int) = (p : Int) := by
    unfold toInt32
    omega
  unfold pageAt
  rw [remoteAfter_memClient, h32]
  simp [memClient, pageOf]

/-! ## `findTeam`: verified properties -/

/-- C1. `findTeam` returns found=false without an error only with a nil team, after
fetching exactly the pages `0 .. k` in ascending order, where page `k` is the first
empty page and no team on the pages `0 .. k` has the ID.  Conversely, when `k` is the
first empty page, the pages before it come back without error and one of them holds a
team with the ID, `findTeam` returns found=true (for every fuel from `k` on). -/
theorem findTeam_not_found_iff_scanned (c : Client σ UF) (id : Int) (w : World σ) :
    (∀ (fuel : Nat) (res : FindResult) (w1 : World σ),
      teamResource.findTeam c id fuel w = some (res, w1) → res.err = none → res.found = false →
        res.team = none ∧
        ∃ k : Nat,
          pageAt c w.remote k = Except.ok [] ∧
          (∀ j, j < k → ∃ ts, pageAt c w.remote j = Except.ok ts ∧ ts ≠ []) ∧
          (∀ j, j ≤ k → ∃ ts, pageAt c w.remote j = Except.ok ts ∧ ∀ t ∈ ts, t.ID ≠ id) ∧
          w1.calls = w.calls ++ pageCalls k) ∧
    (∀ (k m : Nat) (ts : List Team) (t : Team),
      pageAt c w.remote k = Except.ok [] →
      (∀ j, j < k → ∃ tj, pageAt c w.remote j = Except.ok tj ∧ tj ≠ []) →
      m < k → pageAt c w.remote m = Except.ok ts → t ∈ ts → t.ID = id →
        ∃ (res : FindResult) (w1 : World σ),
          (∀ fuel, k ≤ fuel → teamResource.findTeam c id fuel w = some (res, w1)) ∧
          res.found = true ∧ res.err = none) := by
  constructor
  · intro fuel res w1 h herr hfound
    obtain ⟨k, _, hp, hs, hw⟩ := findTeam_sound c id fuel w res w1 h
    rcases hs with ⟨err, _, rfl⟩ | ⟨ts, hts, ⟨t, _, rfl⟩ | ⟨rfl, rfl⟩⟩
    · simp at herr
    · simp at hfound
    · refine ⟨rfl, k, hts, ?_, ?_, ?_⟩
      · intro j hj
        obtain ⟨tj, htj, hne, _⟩ := hp j (Nat.zero_le j) hj
        exact ⟨tj, htj, hne⟩
      · intro j hj
        by_cases hjk : j = k
        · subst hjk
          exact ⟨[], hts, fun t ht => absurd ht (List.not_mem_nil t)⟩
        · obtain ⟨tj, htj, _, hno⟩ := hp j (Nat.zero_le j) (by omega)
          exact ⟨tj, htj, hno⟩
      · rw [hw]
  · intro k m ts t hk hbefore hm hts ht hid
    have hok : ∀ j, j ≤ m → ∃ tj, pageAt c w.remote j = Except.ok tj := by
      intro j hj
      obtain ⟨tj, htj, _⟩ := hbefore j (by omega)
      exact ⟨tj, htj⟩
    obtain ⟨k1, res, hk1, hp, hs, herr, hfound, _⟩ :=
      exists_stop c w.remote id m hok ⟨ts, hts, Or.inr ⟨t, ht, hid⟩⟩
    refine ⟨res, ⟨remoteAfter c w.remote (k1 + 1), w.calls ++ pageCalls k1⟩, ?_, ?_, herr⟩
    · intro fuel hfuel
      exact findTeam_complete c id w k1 res hp hs fuel (by omega)
    · obtain ⟨tj, htj, hne⟩ := hbefore k1 (by omega)
      exact hfound ⟨tj, htj, hne⟩

/-- C2. When `findTeam` returns found=true the error is nil and the returned team has
the ID and is the first team with the ID on page `k`, the lowest page that holds one:
the pages `0 .. k - 1` came back non-empty and without a match, and the calls issued
are exactly one fetch of each page `0 .. k`, in ascending order. -/
theorem findTeam_found_first_match (c : Client σ UF) (id : Int) (fuel : Nat) (w : World σ)
    (res : FindResult) (w1 : World σ)
    (h : teamResource.findTeam c id fuel w = some (res, w1)) (hfound : res.found = true) :
    res.err = none ∧
    ∃ (k : Nat) (t : Team) (before after : List Team),
      res.team = some t ∧ t.ID = id ∧
      pageAt c w.remote k = Except.ok (before ++ t :: after) ∧
      (∀ x ∈ before, x.ID ≠ id) ∧
      (∀ j, j < k → ∃ tj, pageAt c w.remote j = Except.ok tj ∧ tj ≠ [] ∧
        ∀ x ∈ tj, x.ID ≠ id) ∧
      w1.calls = w.calls ++ pageCalls k := by
  obtain ⟨k, _, hp, hs, hw⟩ := findTeam_sound c id fuel w res w1 h
  rcases hs with ⟨err, _, rfl⟩ | ⟨ts, hts, ⟨t, hfind, rfl⟩ | ⟨rfl, rfl⟩⟩
  · simp at hfound
  · obtain ⟨hpt, before, after, rfl, hbefore⟩ := List.find?_eq_some.mp hfind
    refine ⟨rfl, k, t, before, after, rfl, ?_, hts, ?_, ?_, ?_⟩
    · simpa using (eq_comm.mp (of_decide_eq_true hpt))
    · intro x hx heq
      have := hbefore x hx
      simp [heq] at this
    · intro j hj
      exact hp j (Nat.zero_le j) hj
    · rw [hw]
  · simp at hfound

/-- C3. When the remote serves a list of teams in pages of 10 (page `p` of the scan is
`pageOf all p` for every page up to `ceil(length / 10)`), `findTeam` returns for every
ID once the fuel exceeds `ceil(length / 10)`, without error, after fetching the pages
`0 .. k` with at most `ceil(length / 10) + 1` fetches, and after exactly that many when
no team has the ID. -/
theorem findTeam_terminates_paged (c : Client σ UF) (id : Int) (w : World σ)
    (all : List Team)
    (hserve : ∀ p, p ≤ (all.length + 9) / 10 →
      pageAt c w.remote p = Except.ok (pageOf all p)) :
    ∃ (res : FindResult) (w1 : World σ) (k : Nat),
      (∀ fuel, (all.length + 9) / 10 + 1 ≤ fuel → teamResource.findTeam c id fuel w = some (res, w1)) ∧
      res.err = none ∧
      w1.calls = w.calls ++ pageCalls k ∧
      (pageCalls k).length ≤ (all.length + 9) / 10 + 1 ∧
      ((∀ t ∈ all, t.ID ≠ id) →
        res.found = false ∧ (pageCalls k).length = (all.length + 9) / 10 + 1) := by
  have hlast : pageOf all ((all.length + 9) / 10) = [] := by
    unfold pageOf
    rw [List.drop_eq_nil_of_le (by omega)]
    rfl
  have hok : ∀ j, j ≤ (all.length + 9) / 10 → ∃ ts, pageAt c w.remote j = Except.ok ts :=
    fun j hj => ⟨_, hserve j hj⟩
  have hne : ∀ j, j < (all.length + 9) / 10 → pageOf all j ≠ [] := by
    intro j hj he
    have hlen : (pageOf all j).length = 0 := by rw [he]; rfl
    unfold pageOf at hlen
    rw [List.length_take, List.length_drop] at hlen
    omega
  have hsub : ∀ j, ∀ t ∈ pageOf all j, t ∈ all := by
    intro j t ht
    exact List.mem_of_mem_drop (List.mem_of_mem_take ht)
  obtain ⟨k, res, hk, hp, hs, herr, _, hexact⟩ :=
    exists_stop c w.remote id ((all.length + 9) / 10) hok
      ⟨_, hserve _ (le_refl _), Or.inl hlast⟩
  have hlen : (pageCalls k).length = k + 1 := by simp [pageCalls]
  refine ⟨res, ⟨remoteAfter c w.remote (k + 1), w.calls ++ pageCalls k⟩, k, ?_, herr, rfl,
    by omega, ?_⟩
  · intro fuel hfuel
    exact findTeam_complete c id w k res hp hs fuel (by omega)
  · intro hnone
    have hkK : k = (all.length + 9) / 10 :=
      hexact (fun j hj => ⟨_, hserve j (by omega), hne j hj,
        fun t ht => hnone t (hsub j t ht)⟩)
    refine ⟨?_, by omega⟩
    rcases hs with ⟨err, _, rfl⟩ | ⟨ts, hts, ⟨t, hfind, rfl⟩ | ⟨rfl, rfl⟩⟩
    · rfl
    · rw [hserve k hk] at hts
      cases hts
      have hmem := List.mem_of_find?_eq_some hfind
      have hpt := List.find?_some hfind
      exact absurd (of_decide_eq_true hpt).symm (hnone t (hsub k t hmem))
    · rfl

theorem findTeam_not_found_iff_scanned_witness :
    (teamResource.findTeam memClient 50 3 demoWorld =
        some (⟨none, false, none⟩, ⟨demoTeams, pageCalls 2⟩) ∧
      ∃ k : Nat, pageAt memClient demoTeams k = Except.ok [] ∧
        pageCalls 2 = [] ++ pageCalls k) ∧
    (pageAt memClient demoTeams 2 = Except.ok [] ∧
      pageAt memClient demoTeams 1 = Except.ok [⟨10, "team", []⟩, ⟨11, "team", []⟩] ∧
      ∃ (res : FindResult) (w1 : World (List Team)),
        (∀ fuel, 2 ≤ fuel → teamResource.findTeam memClient 11 fuel demoWorld = some (res, w1)) ∧
        res.found = true ∧ res.err = none) := by
  refine ⟨?_, rfl, rfl, ?_⟩
  · obtain ⟨_, k, hk, _, _, hc⟩ :=
      (findTeam_not_found_iff_scanned memClient 50 demoWorld).1 3 ⟨none, false, none⟩
        ⟨demoTeams, pageCalls 2⟩ (by decide) rfl rfl
    exact ⟨by decide, k, hk, hc⟩
  · refine (findTeam_not_found_iff_scanned memClient 11 demoWorld).2 2 1
      [⟨10, "team", []⟩, ⟨11, "team", []⟩] ⟨11, "team", []⟩ rfl ?_ (by decide)
      rfl (by decide) rfl
    intro j hj
    interval_cases j
    · exact ⟨_, rfl, by decide⟩
    · exact ⟨_, rfl, by decide⟩

theorem findTeam_found_first_match_witness :
    teamResource.findTeam memClient 11 5 demoWorld =
        some (⟨some ⟨11, "team", []⟩, true, none⟩, ⟨demoTeams, pageCalls 1⟩) ∧
    ∃ (k : Nat) (t : Team) (before after : List Team),
      some (⟨11, "team", []⟩ : Team) = some t ∧ t.ID = 11 ∧
      pageAt memClient demoTeams k = Except.ok (before ++ t :: after) ∧
      (∀ x ∈ before, x.ID ≠ 11) ∧
      (∀ j, j < k → ∃ tj, pageAt memClient demoTeams j = Except.ok tj ∧ tj ≠ [] ∧
        ∀ x ∈ tj, x.ID ≠ 11) ∧
      pageCalls 1 = [] ++ pageCalls k :=
  ⟨by decide,
    (findTeam_found_first_match memClient 11 5 demoWorld
      ⟨some ⟨11, "team", []⟩, true, none⟩ ⟨demoTeams, pageCalls 1⟩ (by decide) rfl).2⟩

theorem findTeam_terminates_paged_witness :
    (∀ p, p ≤ (demoTeams.length + 9) / 10 →
      pageAt memClient demoTeams p = Except.ok (pageOf demoTeams p)) ∧
    ∃ (res : FindResult) (w1 : World (List Team)) (k : Nat),
      (∀ fuel, (demoTeams.length + 9) / 10 + 1 ≤ fuel →
        teamResource.findTeam memClient 50 fuel demoWorld = some (res, w1)) ∧
      res.err = none ∧
      w1.calls = [] ++ pageCalls k ∧
      (pageCalls k).length ≤ (demoTeams.length + 9) / 10 + 1 ∧
      ((∀ t ∈ demoTeams, t.ID ≠ 50) →
        res.found = false ∧ (pageCalls k).length = (demoTeams.length + 9) / 10 + 1) := by
  have hserve : ∀ p, p ≤ (demoTeams.length + 9) / 10 →
      pageAt memClient demoTeams p = Except.ok (pageOf demoTeams p) := by
    intro p hp
    have hp2 : p ≤ 2 := hp
    interval_cases p <;> rfl
  exact ⟨hserve, findTeam_terminates_paged memClient 50 demoWorld demoTeams hserve⟩

/-! ## The provider: verified property -/

/-- C4. For a configuration whose `client_id` and `client_secret` are known, read
without error into a response without error, and every environment: with each
credential resolved to the explicit value when it is not null and to `AIKIDO_CLIENT_ID` /
`AIKIDO_CLIENT_SECRET` otherwise, `Configure` builds the client from the resolved pair
when both are non-empty, and otherwise leaves the client data of the response as it was
and reports, for each empty credential, an error on that attribute whose text names the
environment variable. -/
theorem Configure_resolves_credentials {K : Type} (NewAikidoHttpClient : String → String → K)
    (Getenv : String → String) (req : ConfigureRequest) (resp : ConfigureResponse K)
    (hid : req.Config.value.ClientId ≠ TypesString.unknown)
    (hsecret : req.Config.value.ClientSecret ≠ TypesString.unknown)
    (hget : HasError req.Config.diags = false)
    (hresp : HasError resp.Diagnostics = false) :
    (resolvedCredential req.Config.value.ClientId (Getenv "AIKIDO_CLIENT_ID") ≠ "" ∧
      resolvedCredential req.Config.value.ClientSecret (Getenv "AIKIDO_CLIENT_SECRET") ≠ "" →
      (AikidoProvider.Configure NewAikidoHttpClient Getenv req resp).ResourceData =
          some (NewAikidoHttpClient
            (resolvedCredential req.Config.value.ClientId (Getenv "AIKIDO_CLIENT_ID"))
            (resolvedCredential req.Config.value.ClientSecret
              (Getenv "AIKIDO_CLIENT_SECRET"))) ∧
        (AikidoProvider.Configure NewAikidoHttpClient Getenv req resp).DataSourceData =
          (AikidoProvider.Configure NewAikidoHttpClient Getenv req resp).ResourceData ∧
        HasError (AikidoProvider.Configure NewAikidoHttpClient Getenv req resp).Diagnostics
          = false) ∧
    (resolvedCredential req.Config.value.ClientId (Getenv "AIKIDO_CLIENT_ID") = "" ∨
      resolvedCredential req.Config.value.ClientSecret (Getenv "AIKIDO_CLIENT_SECRET") = "" →
      (AikidoProvider.Configure NewAikidoHttpClient Getenv req resp).ResourceData =
          resp.ResourceData ∧
        (AikidoProvider.Configure NewAikidoHttpClient Getenv req resp).DataSourceData =
          resp.DataSourceData ∧
        HasError (AikidoProvider.Configure NewAikidoHttpClient Getenv req resp).Diagnostics
          = true) ∧
    (resolvedCredential req.Config.value.ClientId (Getenv "AIKIDO_CLIENT_ID") = "" →
      ∃ d ∈ (AikidoProvider.Configure NewAikidoHttpClient Getenv req resp).Diagnostics,
        d.Severity = Severity.Error ∧ d.Path = some "client_id" ∧
        Mentions "AIKIDO_CLIENT_ID" d.Detail) ∧
    (resolvedCredential req.Config.value.ClientSecret (Getenv "AIKIDO_CLIENT_SECRET") = "" →
      ∃ d ∈ (AikidoProvider.Configure NewAikidoHttpClient Getenv req resp).Diagnostics,
        d.Severity = Severity.Error ∧ d.Path = some "client_secret" ∧
        Mentions "AIKIDO_CLIENT_SECRET" d.Detail) := by
  have h1 : HasError (Append resp.Diagnostics req.Config.diags) = false := by
    rw [HasError_Append, hget, hresp]; rfl
  have hu1 : req.Config.value.ClientId.IsUnknown = false := by
    cases hc : req.Config.value.ClientId <;> simp_all [TypesString.IsUnknown]
  have hu2 : req.Config.value.ClientSecret.IsUnknown = false := by
    cases hc : req.Config.value.ClientSecret <;> simp_all [TypesString.IsUnknown]
  have hr1 : ∀ e, (if (!req.Config.value.ClientId.IsNull) = true
      then req.Config.value.ClientId.ValueString else e) =
      resolvedCredential req.Config.value.ClientId e := by
    intro e
    cases hc : req.Config.value.ClientId <;>
      simp [TypesString.IsNull, resolvedCredential, TypesString.ValueString]
  have hr2 : ∀ e, (if (!req.Config.value.ClientSecret.IsNull) = true
      then req.Config.value.ClientSecret.ValueString else e) =
      resolvedCredential req.Config.value.ClientSecret e := by
    intro e
    cases hc : req.Config.value.ClientSecret <;>
      simp [TypesString.IsNull, resolvedCredential, TypesString.ValueString]
  have hm1 : Mentions "AIKIDO_CLIENT_ID"
      ("The provider cannot create the Aikido API client as there is a missing or empty value for the Aikido API client id. " ++
        "Set the client id value in the configuration or use the AIKIDO_CLIENT_ID environment variable. " ++
        "If either is already set, ensure the value is not empty.") :=
    ⟨"The provider cannot create the Aikido API client as there is a missing or empty value for the Aikido API client id. Set the client id value in the configuration or use the ",
      " environment variable. If either is already set, ensure the value is not empty.",
      rfl⟩
  have hm2 : Mentions "AIKIDO_CLIENT_SECRET"
      ("The provider cannot create the Aikido API client as there is a missing or empty value for the Aikido API client secret. " ++
        "Set the client secret value in the configuration or use the AIKIDO_CLIENT_SECRET environment variable. " ++
        "If either is already set, ensure the value is not empty.") :=
    ⟨"The provider cannot create the Aikido API client as there is a missing or empty value for the Aikido API client secret. Set the client secret value in the configuration or use the ",
      " environment variable. If either is already set, ensure the value is not empty.",
      rfl⟩
  simp only [AikidoProvider.Configure, h1, hu1, hu2, hr1, hr2, Bool.false_eq_true, if_false]
  generalize resolvedCredential req.Config.value.ClientId (Getenv "AIKIDO_CLIENT_ID") = cid
  generalize
    resolvedCredential req.Config.value.ClientSecret (Getenv "AIKIDO_CLIENT_SECRET") = csec
  by_cases hc1 : cid = ""
  · by_cases hc2 : csec = ""
    · simp only [if_pos hc1, if_pos hc2, HasError_AddAttributeError, if_true]
      exact ⟨fun h => absurd hc1 h.1, fun _ => ⟨trivial, trivial, trivial⟩,
        fun _ => ⟨_, mem_AddAttributeError_of_mem _ _ _ _ _ (mem_AddAttributeError _ _ _ _),
          rfl, rfl, hm1⟩,
        fun _ => ⟨_, mem_AddAttributeError _ _ _ _, rfl, rfl, hm2⟩⟩
    · simp only [if_pos hc1, if_neg hc2, HasError_AddAttributeError, if_true]
      exact ⟨fun h => absurd hc1 h.1, fun _ => ⟨trivial, trivial, trivial⟩,
        fun _ => ⟨_, mem_AddAttributeError _ _ _ _, rfl, rfl, hm1⟩,
        fun h => absurd h hc2⟩
  · by_cases hc2 : csec = ""
    · simp only [if_neg hc1, if_pos hc2, HasError_AddAttributeError, if_true]
      exact ⟨fun h => absurd hc2 h.2, fun _ => ⟨trivial, trivial, trivial⟩,
        fun h => absurd h hc1,
        fun _ => ⟨_, mem_AddAttributeError _ _ _ _, rfl, rfl, hm2⟩⟩
    · simp only [if_neg hc1, if_neg hc2, h1, Bool.false_eq_true, if_false]
      refine ⟨fun _ => ⟨trivial, trivial, trivial⟩, ?_, fun h => absurd h hc1, fun h => absurd h hc2⟩
      rintro (h | h)
      · exact absurd h hc1
      · exact absurd h hc2

theorem Configure_resolves_credentials_witness :
    (resolvedCredential (TypesString.value "id-from-config") (demoEnv "AIKIDO_CLIENT_ID") =
        "id-from-config" ∧
      resolvedCredential TypesString.null (demoEnv "AIKIDO_CLIENT_SECRET") = "") ∧
    (AikidoProvider.Configure (fun a b => (a, b)) demoEnv
        ⟨⟨⟨TypesString.value "id-from-config", TypesString.null⟩, []⟩⟩
        ⟨[], none, none⟩).ResourceData = none ∧
    ∃ d ∈ (AikidoProvider.Configure (fun a b => (a, b)) demoEnv
        ⟨⟨⟨TypesString.value "id-from-config", TypesString.null⟩, []⟩⟩
        ⟨[], none, none⟩).Diagnostics,
      d.Severity = Severity.Error ∧ d.Path = some "client_secret" ∧
        Mentions "AIKIDO_CLIENT_SECRET" d.Detail :=
  ⟨⟨by decide, by decide⟩,
    ((Configure_resolves_credentials (fun a b => (a, b)) demoEnv
      ⟨⟨⟨TypesString.value "id-from-config", TypesString.null⟩, []⟩⟩ ⟨[], none, none⟩
      (by decide) (by decide) rfl rfl).2.1 (Or.inr (by decide))).1,
    (Configure_resolves_credentials (fun a b => (a, b)) demoEnv
      ⟨⟨⟨TypesString.value "id-from-config", TypesString.null⟩, []⟩⟩ ⟨[], none, none⟩
      (by decide) (by decide) rfl rfl).2.2.2 (by decide)⟩

/-! ## Lemmas on the loops over responsibilities and users -/

theorem foldl_append_singleton {α β : Type} (f : α → β) (xs : List α) (init : List β) :
    xs.foldl (fun acc x => acc ++ [f x]) init = init ++ xs.map f := by
  induction xs generalizing init with
  | nil => simp
  | cons x xs ih => simp [ih]

theorem toResponsibilities_eq_map (rs : List teamResponsibility) :
    toResponsibilities rs =
      rs.map (fun r => (⟨r.ID.ValueInt32, r.Type_.ValueString⟩ : Responsibility)) := by
  unfold toResponsibilities
  rw [foldl_append_singleton (fun (r : teamResponsibility) =>
    (⟨r.ID.ValueInt32, r.Type_.ValueString⟩ : Responsibility))]
  simp

theorem fromResponsibilities_eq_map (rs : List Responsibility) :
    fromResponsibilities rs =
      rs.map (fun r => (⟨Int32Value (toInt32 r.ID), StringValue r.Type_⟩ :
        teamResponsibility)) := by
  unfold fromResponsibilities
  rw [foldl_append_singleton (fun (r : Responsibility) =>
    (⟨Int32Value (toInt32 r.ID), StringValue r.Type_⟩ : teamResponsibility))]
  simp

theorem toInt32_of_InInt32 (v : Int) (h : InInt32 v) : toInt32 v = v := by
  unfold InInt32 at h
  unfold toInt32
  omega

/-- The state that `Read` and `Update` build from a remote team agrees with it. -/
theorem AgreesWith_built (remoteTeam : Team) (h : InInt32 remoteTeam.ID) :
    AgreesWith
      { ID := Int32Value (toInt32 remoteTeam.ID)
        Name := StringValue remoteTeam.Name
        Responsibilities := fromResponsibilities remoteTeam.Responsibilities }
      remoteTeam := by
  refine ⟨?_, rfl, ?_, ?_⟩
  · simp [Int32Value, toInt32_of_InInt32 _ h]
  · simp [fromResponsibilities_eq_map]
  · intro i h1 h2
    simp only [fromResponsibilities_eq_map, List.get_eq_getElem, List.getElem_map]
    refine ⟨?_, rfl⟩
    intro hr
    simp [Int32Value, toInt32_of_InInt32 _ hr]

/-- A team that `findTeam` returns has the identifier that was asked for. -/
theorem findTeam_found_id (c : Client σ UF) (id : Int) (fuel : Nat) (w w1 : World σ)
    (team : Option Team) (h : teamResource.findTeam c id fuel w = some (⟨team, true, none⟩, w1)) :
    ∃ t, team = some t ∧ t.ID = id := by
  obtain ⟨k, _, _, hs, _⟩ := findTeam_sound c id fuel w _ w1 h
  rcases hs with ⟨err, _, he⟩ | ⟨ts, _, ⟨t, hfind, he⟩ | ⟨_, he⟩⟩
  · simp at he
  · simp only [FindResult.mk.injEq] at he
    have hpt : decide (id = t.ID) = true :=
      List.find?_some (p := fun (x : Team) => decide (id = x.ID)) hfind
    exact ⟨t, he.1, (of_decide_eq_true hpt).symm⟩
  · simp at he

/-- A `Read` without an error diagnostic found the team and wrote its state. -/
theorem Read_success_inv (Quote : String → String) (c : Client σ UF) (fuel : Nat) (req : ReadRequest)
    (resp resp1 : Response) (w w1 : World σ)
    (h : teamResource.Read Quote c fuel req resp w = some (resp1, w1))
    (herr : HasError resp1.Diagnostics = false) :
    ∃ remoteTeam : Team,
      teamResource.findTeam c req.State.value.ID.ValueInt32 fuel w =
        some (⟨some remoteTeam, true, none⟩, w1) ∧
      remoteTeam.ID = req.State.value.ID.ValueInt32 ∧
      resp1.State = some (stateOf remoteTeam) := by
  by_cases h1 : HasError (Append resp.Diagnostics req.State.diags) = true
  · simp only [teamResource.Read, h1, if_true, Option.some.injEq, Prod.mk.injEq] at h
    rw [← h.1] at herr
    simp [h1] at herr
  · simp only [teamResource.Read, h1, if_false, Bool.false_eq_true] at h
    cases hf : teamResource.findTeam c req.State.value.ID.ValueInt32 fuel w with
    | none => simp [hf] at h
    | some p =>
      obtain ⟨⟨team, found, err⟩, wf⟩ := p
      rw [hf] at h
      cases err with
      | some e =>
        simp only [Option.some.injEq, Prod.mk.injEq] at h
        rw [← h.1] at herr
        simp [HasError_AddError] at herr
      | none =>
        cases found with
        | false =>
          simp only [Option.some.injEq, Prod.mk.injEq] at h
          rw [← h.1] at herr
          simp [HasError_AddError] at herr
        | true =>
          obtain ⟨t, rfl, htid⟩ := findTeam_found_id c _ fuel w wf team hf
          simp only [Option.some.injEq, Prod.mk.injEq] at h
          refine ⟨t, by rw [h.2], htid, ?_⟩
          rw [← h.1]; rfl

/-- An `Update` without an error diagnostic issued the update call without error and
then either did not find the team and left the state, or found it and wrote its
state. -/
theorem Update_success_inv (c : Client σ UF) (fuel : Nat) (req : UpdateRequest)
    (resp resp1 : Response) (w w1 : World σ)
    (h : teamResource.Update c fuel req resp w = some (resp1, w1))
    (herr : HasError resp1.Diagnostics = false) :
    ∃ res : FindResult,
      teamResource.findTeam c req.Plan.value.ID.ValueInt32 fuel
        (callUpdateTeam c req.Plan.value.toUpdateTeamRequest w).2 = some (res, w1) ∧
      res.err = none ∧
      ((res.found = false ∧ resp1.State = resp.State) ∨
        (∃ remoteTeam : Team, res = ⟨some remoteTeam, true, none⟩ ∧
          remoteTeam.ID = req.Plan.value.ID.ValueInt32 ∧
          resp1.State = some (stateOf remoteTeam))) := by
  by_cases h1 : HasError (Append resp.Diagnostics req.Plan.diags) = true
  · simp only [teamResource.Update, h1, if_true, Option.some.injEq, Prod.mk.injEq] at h
    rw [← h.1] at herr
    simp [h1] at herr
  · simp only [teamResource.Update, h1, if_false, Bool.false_eq_true] at h
    cases hu : (c.UpdateTeam req.Plan.value.toUpdateTeamRequest w.remote).1 with
    | some e =>
      have hcall : callUpdateTeam c req.Plan.value.toUpdateTeamRequest w =
          (some e, (callUpdateTeam c req.Plan.value.toUpdateTeamRequest w).2) := by
        simp [callUpdateTeam, hu]
      rw [hcall] at h
      simp only [Option.some.injEq, Prod.mk.injEq] at h
      rw [← h.1] at herr
      simp [HasError_AddError] at herr
    | none =>
      have hcall : callUpdateTeam c req.Plan.value.toUpdateTeamRequest w =
          (none, (callUpdateTeam c req.Plan.value.toUpdateTeamRequest w).2) := by
        simp [callUpdateTeam, hu]
      rw [hcall] at h
      simp only at h
      cases hf : teamResource.findTeam c req.Plan.value.ID.ValueInt32 fuel
          (callUpdateTeam c req.Plan.value.toUpdateTeamRequest w).2 with
      | none => simp [hf] at h
      | some p =>
        obtain ⟨⟨team, found, err⟩, wf⟩ := p
        rw [hf] at h
        cases err with
        | some e =>
          simp only [Option.some.injEq, Prod.mk.injEq] at h
          rw [← h.1] at herr
          simp [HasError_AddError] at herr
        | none =>
          cases found with
          | false =>
            simp only [Option.some.injEq, Prod.mk.injEq] at h
            refine ⟨⟨team, false, none⟩, by rw [h.2], rfl, Or.inl ⟨rfl, ?_⟩⟩
            rw [← h.1]
          | true =>
            obtain ⟨t, rfl, htid⟩ := findTeam_found_id c _ fuel _ wf team hf
            simp only [Option.some.injEq, Prod.mk.injEq] at h
            refine ⟨⟨some t, true, none⟩, by rw [h.2], rfl, Or.inr ⟨t, rfl, htid, ?_⟩⟩
            rw [← h.1]; rfl

/-! ## The team resource: verified properties -/

/-- C5. For a plan read without error into a response without error, `Create` first
issues a create call whose request carries the name of the plan and nothing else.  If
that call fails it is the only call and the state is left as it was.  If it returns
`id`, exactly one update call follows, with ID `id`, the name of the plan and the
responsibilities of the plan in the same order, id and type of each kept; if the update
succeeds the state is the plan with its id set to `id`, and if it fails the state is
left as it was. -/
theorem Create_create_then_update (c : Client σ UF) (req : CreateRequest) (resp : Response)
    (w : World σ)
    (hplan : HasError req.Plan.diags = false) (hresp : HasError resp.Diagnostics = false) :
    (∀ err, (c.CreateTeam ⟨req.Plan.value.Name.ValueString⟩ w.remote).1 = Except.error err →
      (teamResource.Create c req resp w).2.calls =
          w.calls ++ [Call.createTeam ⟨req.Plan.value.Name.ValueString⟩] ∧
        (teamResource.Create c req resp w).1.State = resp.State ∧
        HasError (teamResource.Create c req resp w).1.Diagnostics = true) ∧
    (∀ id, (c.CreateTeam ⟨req.Plan.value.Name.ValueString⟩ w.remote).1 = Except.ok id →
      (teamResource.Create c req resp w).2.calls =
          w.calls ++
            [Call.createTeam ⟨req.Plan.value.Name.ValueString⟩,
              Call.updateTeam
                { ID := id
                  Name := req.Plan.value.Name.ValueString
                  Responsibilities := req.Plan.value.Responsibilities.map
                    (fun r => ⟨r.ID.ValueInt32, r.Type_.ValueString⟩) }] ∧
        ((c.UpdateTeam
              { ID := id
                Name := req.Plan.value.Name.ValueString
                Responsibilities := req.Plan.value.Responsibilities.map
                  (fun r => ⟨r.ID.ValueInt32, r.Type_.ValueString⟩) }
              (c.CreateTeam ⟨req.Plan.value.Name.ValueString⟩ w.remote).2).1 = none →
          (teamResource.Create c req resp w).1.State =
              some { req.Plan.value with ID := TypesInt32.value id } ∧
            HasError (teamResource.Create c req resp w).1.Diagnostics = false) ∧
        (∀ err,
          (c.UpdateTeam
              { ID := id
                Name := req.Plan.value.Name.ValueString
                Responsibilities := req.Plan.value.Responsibilities.map
                  (fun r => ⟨r.ID.ValueInt32, r.Type_.ValueString⟩) }
              (c.CreateTeam ⟨req.Plan.value.Name.ValueString⟩ w.remote).2).1 = some err →
          (teamResource.Create c req resp w).1.State = resp.State ∧
            HasError (teamResource.Create c req resp w).1.Diagnostics = true)) := by
  have h1 : HasError (Append resp.Diagnostics req.Plan.diags) = false := by
    rw [HasError_Append, hplan, hresp]; rfl
  constructor
  · intro err herr
    simp [teamResource.Create, h1, callCreateTeam, herr, HasError_AddError]
  · intro id hid
    refine ⟨?_, ?_, ?_⟩
    · cases hupd : (c.UpdateTeam
              { ID := id
                Name := req.Plan.value.Name.ValueString
                Responsibilities := req.Plan.value.Responsibilities.map
                  (fun r => ⟨r.ID.ValueInt32, r.Type_.ValueString⟩) }
              (c.CreateTeam ⟨req.Plan.value.Name.ValueString⟩ w.remote).2).1 <;>
        simp [teamResource.Create, h1, callCreateTeam, hid, callUpdateTeam,
          toResponsibilities_eq_map, hupd]
    · intro hupd
      simp [teamResource.Create, h1, callCreateTeam, hid, callUpdateTeam,
        toResponsibilities_eq_map, hupd, Response.Set, Append_nil, Int32Value]
    · intro err hupd
      simp [teamResource.Create, h1, callCreateTeam, hid, callUpdateTeam,
        toResponsibilities_eq_map, hupd, HasError_AddError]

theorem Create_create_then_update_witness :
    (HasError [] = false ∧
      (memClient.CreateTeam ⟨""⟩ demoTeams).1 = Except.error "name must not be empty" ∧
      (memClient.CreateTeam ⟨"ops"⟩ demoTeams).1 = Except.ok 112) ∧
    ((teamResource.Create memClient ⟨⟨⟨TypesInt32.unknown, TypesString.value "", []⟩, []⟩⟩
        ⟨none, []⟩ demoWorld).2.calls = [] ++ [Call.createTeam ⟨""⟩] ∧
      (teamResource.Create memClient ⟨⟨⟨TypesInt32.unknown, TypesString.value "", []⟩, []⟩⟩
        ⟨none, []⟩ demoWorld).1.State = none) ∧
    ((teamResource.Create memClient
        ⟨⟨⟨TypesInt32.unknown, TypesString.value "ops",
          [⟨TypesInt32.value 4, TypesString.value "cloud"⟩]⟩, []⟩⟩
        ⟨none, []⟩ demoWorld).2.calls =
          [] ++ [Call.createTeam ⟨"ops"⟩, Call.updateTeam ⟨112, "ops", [⟨4, "cloud"⟩]⟩] ∧
      (teamResource.Create memClient
        ⟨⟨⟨TypesInt32.unknown, TypesString.value "ops",
          [⟨TypesInt32.value 4, TypesString.value "cloud"⟩]⟩, []⟩⟩
        ⟨none, []⟩ demoWorld).1.State =
          some ⟨TypesInt32.value 112, TypesString.value "ops",
            [⟨TypesInt32.value 4, TypesString.value "cloud"⟩]⟩) :=
  ⟨⟨rfl, rfl, rfl⟩,
    ⟨((Create_create_then_update memClient
        ⟨⟨⟨TypesInt32.unknown, TypesString.value "", []⟩, []⟩⟩ ⟨none, []⟩ demoWorld rfl rfl).1
          "name must not be empty" rfl).1,
      ((Create_create_then_update memClient
        ⟨⟨⟨TypesInt32.unknown, TypesString.value "", []⟩, []⟩⟩ ⟨none, []⟩ demoWorld rfl rfl).1
          "name must not be empty" rfl).2.1⟩,
    ⟨((Create_create_then_update memClient
        ⟨⟨⟨TypesInt32.unknown, TypesString.value "ops",
          [⟨TypesInt32.value 4, TypesString.value "cloud"⟩]⟩, []⟩⟩
        ⟨none, []⟩ demoWorld rfl rfl).2 112 rfl).1,
      (((Create_create_then_update memClient
        ⟨⟨⟨TypesInt32.unknown, TypesString.value "ops",
          [⟨TypesInt32.value 4, TypesString.value "cloud"⟩]⟩, []⟩⟩
        ⟨none, []⟩ demoWorld rfl rfl).2 112 rfl).2.1 (by decide)).1⟩⟩

/-- C6. When the plan is read without error into a response without error, the update
call of `Update` succeeds and the `findTeam` that follows returns found=false without
error, `Update` returns the state of the response as it was and, as diagnostics, those
of the response and of reading the plan: no error, and nothing added by the handler. -/
theorem Update_not_found_keeps_state (c : Client σ UF) (fuel : Nat) (req : UpdateRequest)
    (resp : Response) (w : World σ) (res : FindResult) (w2 : World σ)
    (hplan : HasError req.Plan.diags = false) (hresp : HasError resp.Diagnostics = false)
    (hupdate : (c.UpdateTeam req.Plan.value.toUpdateTeamRequest w.remote).1 = none)
    (hfind : teamResource.findTeam c req.Plan.value.ID.ValueInt32 fuel
      (callUpdateTeam c req.Plan.value.toUpdateTeamRequest w).2 = some (res, w2))
    (hfound : res.found = false) (herr : res.err = none) :
    teamResource.Update c fuel req resp w =
        some (⟨resp.State, Append resp.Diagnostics req.Plan.diags⟩, w2) ∧
      HasError (Append resp.Diagnostics req.Plan.diags) = false := by
  have h1 : HasError (Append resp.Diagnostics req.Plan.diags) = false := by
    rw [HasError_Append, hplan, hresp]; rfl
  refine ⟨?_, h1⟩
  obtain ⟨team, found, err⟩ := res
  simp only at hfound herr
  subst hfound herr
  have hcall : callUpdateTeam c req.Plan.value.toUpdateTeamRequest w =
      (none, (callUpdateTeam c req.Plan.value.toUpdateTeamRequest w).2) := by
    simp [callUpdateTeam, hupdate]
  simp only [teamResource.Update, h1, Bool.false_eq_true, if_false]
  rw [hcall]
  simp only [hfind]

theorem Update_not_found_keeps_state_witness :
    (emptyClient.UpdateTeam ⟨7, "core", []⟩ ()).1 = none ∧
    teamResource.findTeam emptyClient 7 1 ⟨(), [Call.updateTeam ⟨7, "core", []⟩]⟩ =
      some (⟨none, false, none⟩,
        ⟨(), [Call.updateTeam ⟨7, "core", []⟩, Call.listTeams ⟨0, 10⟩]⟩) ∧
    teamResource.Update emptyClient 1 ⟨⟨⟨TypesInt32.value 7, TypesString.value "core", []⟩, []⟩⟩
        ⟨some ⟨TypesInt32.value 7, TypesString.value "old", []⟩, []⟩ ⟨(), []⟩ =
      some (⟨some ⟨TypesInt32.value 7, TypesString.value "old", []⟩, []⟩,
        ⟨(), [Call.updateTeam ⟨7, "core", []⟩, Call.listTeams ⟨0, 10⟩]⟩) :=
  ⟨rfl, by decide,
    (Update_not_found_keeps_state emptyClient 1
      ⟨⟨⟨TypesInt32.value 7, TypesString.value "core", []⟩, []⟩⟩
      ⟨some ⟨TypesInt32.value 7, TypesString.value "old", []⟩, []⟩ ⟨(), []⟩
      ⟨none, false, none⟩ ⟨(), [Call.updateTeam ⟨7, "core", []⟩, Call.listTeams ⟨0, 10⟩]⟩
      rfl rfl rfl (by decide) rfl rfl).1⟩

/-- C7. When page `k` is the first empty page of the scan and no team on the pages
before it has the stored identifier, `Read` returns for every fuel above `k`, with an
error diagnostic and with the state of the response as it was: the state is neither
written nor removed. -/
theorem Read_missing_team_is_error (Quote : String → String) (c : Client σ UF) (req : ReadRequest) (resp : Response)
    (w : World σ) (k : Nat)
    (hempty : pageAt c w.remote k = Except.ok [])
    (hbefore : ∀ j, j < k → ∃ ts, pageAt c w.remote j = Except.ok ts ∧ ts ≠ [] ∧
      ∀ t ∈ ts, t.ID ≠ req.State.value.ID.ValueInt32) :
    ∃ (resp1 : Response) (w1 : World σ),
      (∀ fuel, k < fuel → teamResource.Read Quote c fuel req resp w = some (resp1, w1)) ∧
      HasError resp1.Diagnostics = true ∧
      resp1.State = resp.State := by
  by_cases h1 : HasError (Append resp.Diagnostics req.State.diags) = true
  · refine ⟨⟨resp.State, Append resp.Diagnostics req.State.diags⟩, w, ?_, h1, rfl⟩
    intro fuel _
    simp [teamResource.Read, h1]
  · have hp : Passes c w.remote req.State.value.ID.ValueInt32 0 k :=
      fun j _ hj => hbefore j hj
    have hs : Stops c w.remote req.State.value.ID.ValueInt32 k ⟨none, false, none⟩ :=
      Or.inr ⟨[], hempty, Or.inr ⟨rfl, rfl⟩⟩
    refine ⟨⟨resp.State, AddError (Append resp.Diagnostics req.State.diags)
        "Error Reading Team"
        ("Could not find team " ++ req.State.value.ID.String ++ "|" ++
          req.State.value.Name.String Quote ++
          " from aikido. State might need to be cleaned.")⟩,
      ⟨remoteAfter c w.remote (k + 1), w.calls ++ pageCalls k⟩, ?_,
      HasError_AddError _ _ _, rfl⟩
    intro fuel hfuel
    have hf := findTeam_complete c req.State.value.ID.ValueInt32 w k _ hp hs fuel hfuel
    simp only [teamResource.Read, h1, if_false, hf, Bool.false_eq_true]

theorem Read_missing_team_is_error_witness :
    pageAt memClient demoTeams 2 = Except.ok [] ∧
    ∃ (resp1 : Response) (w1 : World (List Team)),
      (∀ fuel, 2 < fuel →
        teamResource.Read plainQuote memClient fuel
          ⟨⟨⟨TypesInt32.value 50, TypesString.value "gone", []⟩, []⟩⟩
          ⟨some ⟨TypesInt32.value 50, TypesString.value "gone", []⟩, []⟩ demoWorld =
            some (resp1, w1)) ∧
      HasError resp1.Diagnostics = true ∧
      resp1.State = some ⟨TypesInt32.value 50, TypesString.value "gone", []⟩ := by
  refine ⟨rfl, Read_missing_team_is_error plainQuote memClient
    ⟨⟨⟨TypesInt32.value 50, TypesString.value "gone", []⟩, []⟩⟩
    ⟨some ⟨TypesInt32.value 50, TypesString.value "gone", []⟩, []⟩ demoWorld 2 rfl ?_⟩
  intro j hj
  interval_cases j
  · exact ⟨_, rfl, by decide, by decide⟩
  · exact ⟨_, rfl, by decide, by decide⟩

/-- C8, as stated, fails, in two runs.  The remote team `wideTeam` has a responsibility
with the identifier `2^31`: `Read` completes without an error diagnostic and writes a
state whose responsibility has the identifier `-2^31`, so the state does not equal the
remote team that `findTeam` returned.  On a remote that applies the update and whose
listing lags behind, `Update` completes without an error diagnostic and leaves the
prior state, named `old`, while the remote team is named `core`. -/
theorem state_equals_remote_counterexample :
    (teamResource.Read plainQuote memClient 1
        ⟨⟨⟨TypesInt32.value 7, TypesString.value "core", []⟩, []⟩⟩
        ⟨some ⟨TypesInt32.value 7, TypesString.value "core", []⟩, []⟩ ⟨[wideTeam], []⟩ =
      some (⟨some ⟨TypesInt32.value 7, TypesString.value "core",
          [⟨TypesInt32.value (-2147483648), TypesString.value "cloud"⟩]⟩, []⟩,
        ⟨[wideTeam], [Call.listTeams ⟨0, 10⟩]⟩) ∧
      teamResource.findTeam memClient 7 1 ⟨[wideTeam], []⟩ =
        some (⟨some wideTeam, true, none⟩, ⟨[wideTeam], [Call.listTeams ⟨0, 10⟩]⟩) ∧
      ¬ EqualsRemote
        ⟨TypesInt32.value 7, TypesString.value "core",
          [⟨TypesInt32.value (-2147483648), TypesString.value "cloud"⟩]⟩ wideTeam) ∧
    (teamResource.Update laggingClient 1
        ⟨⟨⟨TypesInt32.value 7, TypesString.value "core", []⟩, []⟩⟩
        ⟨some ⟨TypesInt32.value 7, TypesString.value "old", []⟩, []⟩
        ⟨[⟨7, "old", []⟩], []⟩ =
      some (⟨some ⟨TypesInt32.value 7, TypesString.value "old", []⟩, []⟩,
        ⟨[⟨7, "core", []⟩],
          [Call.updateTeam ⟨7, "core", []⟩, Call.listTeams ⟨0, 10⟩]⟩) ∧
      ¬ EqualsRemote ⟨TypesInt32.value 7, TypesString.value "old", []⟩ ⟨7, "core", []⟩) := by
  refine ⟨⟨by decide, by decide, ?_⟩, by decide, ?_⟩
  · intro h
    have h0 := (h.2.2.2 0 (by decide) (by decide)).1
    revert h0
    decide
  · intro h
    have h0 := h.2.1
    revert h0
    decide

/-- C8, amended. After a `Read` that completes without an error diagnostic, and after
an `Update` that completes without an error diagnostic and whose `findTeam` located the
team, the state agrees with the remote team `findTeam` returned: same id and name, a
responsibilities list of the same length, the type of each element equal, and the id of
each element equal to the remote id whenever the remote id lies in the range of
`int32`.  The stored id is an `int32`. -/
theorem state_agrees_with_remote (Quote : String → String) (c : Client σ UF) (fuel : Nat) (resp resp1 : Response)
    (w w1 : World σ) :
    (∀ (req : ReadRequest), InInt32 req.State.value.ID.ValueInt32 →
      teamResource.Read Quote c fuel req resp w = some (resp1, w1) →
      HasError resp1.Diagnostics = false →
      ∃ (remoteTeam : Team) (state : teamResourceModel),
        teamResource.findTeam c req.State.value.ID.ValueInt32 fuel w =
          some (⟨some remoteTeam, true, none⟩, w1) ∧
        resp1.State = some state ∧ AgreesWith state remoteTeam) ∧
    (∀ (req : UpdateRequest) (remoteTeam : Team) (w2 : World σ),
      InInt32 req.Plan.value.ID.ValueInt32 →
      teamResource.Update c fuel req resp w = some (resp1, w1) →
      HasError resp1.Diagnostics = false →
      teamResource.findTeam c req.Plan.value.ID.ValueInt32 fuel
        (callUpdateTeam c req.Plan.value.toUpdateTeamRequest w).2 =
          some (⟨some remoteTeam, true, none⟩, w2) →
      ∃ state : teamResourceModel, resp1.State = some state ∧ AgreesWith state remoteTeam) := by
  constructor
  · intro req hin h herr
    obtain ⟨remoteTeam, hf, hid, hst⟩ := Read_success_inv Quote c fuel req resp resp1 w w1 h herr
    exact ⟨remoteTeam, _, hf, hst, AgreesWith_built remoteTeam (by rw [hid]; exact hin)⟩
  · intro req remoteTeam w2 hin h herr hf
    obtain ⟨res, hf2, _, hcase⟩ := Update_success_inv c fuel req resp resp1 w w1 h herr
    rw [hf] at hf2
    simp only [Option.some.injEq, Prod.mk.injEq] at hf2
    rcases hcase with ⟨hnf, _⟩ | ⟨t, hres, hid, hst⟩
    · rw [← hf2.1] at hnf
      simp at hnf
    · rw [← hf2.1] at hres
      simp only [FindResult.mk.injEq, Option.some.injEq] at hres
      rw [← hres.1] at hid hst
      exact ⟨_, hst, AgreesWith_built remoteTeam (by rw [hid]; exact hin)⟩

theorem state_agrees_with_remote_witness :
    (InInt32 11 ∧
      ∃ (remoteTeam : Team) (state : teamResourceModel),
        teamResource.findTeam memClient 11 5 demoWorld =
          some (⟨some remoteTeam, true, none⟩, ⟨demoTeams, pageCalls 1⟩) ∧
        some (⟨TypesInt32.value 11, TypesString.value "team", []⟩ : teamResourceModel) =
          some state ∧
        AgreesWith state remoteTeam) ∧
    (teamResource.Update memClient 5
        ⟨⟨⟨TypesInt32.value 11, TypesString.value "renamed",
          [⟨TypesInt32.value 4, TypesString.value "cloud"⟩]⟩, []⟩⟩
        ⟨some ⟨TypesInt32.value 11, TypesString.value "team", []⟩, []⟩ demoWorld =
      some (⟨some ⟨TypesInt32.value 11, TypesString.value "renamed",
          [⟨TypesInt32.value 4, TypesString.value "cloud"⟩]⟩, []⟩,
        ⟨(memClient.UpdateTeam ⟨11, "renamed", [⟨4, "cloud"⟩]⟩ demoTeams).2,
          Call.updateTeam ⟨11, "renamed", [⟨4, "cloud"⟩]⟩ :: pageCalls 1⟩) ∧
      ∃ state : teamResourceModel,
        some (⟨TypesInt32.value 11, TypesString.value "renamed",
          [⟨TypesInt32.value 4, TypesString.value "cloud"⟩]⟩ : teamResourceModel) =
            some state ∧
        AgreesWith state ⟨11, "renamed", [⟨4, "cloud"⟩]⟩) :=
  ⟨⟨by decide,
      (state_agrees_with_remote plainQuote memClient 5
        ⟨some ⟨TypesInt32.value 11, TypesString.value "team", []⟩, []⟩
        ⟨some ⟨TypesInt32.value 11, TypesString.value "team", []⟩, []⟩
        demoWorld ⟨demoTeams, pageCalls 1⟩).1
        ⟨⟨⟨TypesInt32.value 11, TypesString.value "team", []⟩, []⟩⟩
        (by decide) (by decide) rfl⟩,
    by decide,
    (state_agrees_with_remote plainQuote memClient 5
        ⟨some ⟨TypesInt32.value 11, TypesString.value "team", []⟩, []⟩
        ⟨some ⟨TypesInt32.value 11, TypesString.value "renamed",
          [⟨TypesInt32.value 4, TypesString.value "cloud"⟩]⟩, []⟩
        demoWorld
        ⟨(memClient.UpdateTeam ⟨11, "renamed", [⟨4, "cloud"⟩]⟩ demoTeams).2,
          Call.updateTeam ⟨11, "renamed", [⟨4, "cloud"⟩]⟩ :: pageCalls 1⟩).2
        ⟨⟨⟨TypesInt32.value 11, TypesString.value "renamed",
          [⟨TypesInt32.value 4, TypesString.value "cloud"⟩]⟩, []⟩⟩
        ⟨11, "renamed", [⟨4, "cloud"⟩]⟩
        ⟨(memClient.UpdateTeam ⟨11, "renamed", [⟨4, "cloud"⟩]⟩ demoTeams).2,
          Call.updateTeam ⟨11, "renamed", [⟨4, "cloud"⟩]⟩ :: pageCalls 1⟩
        (by decide) (by decide) rfl (by decide)⟩

/-- C9. The identifier of a team is stable.  An `Update` whose plan holds the `int32`
identifier `v`, run on the prior state (whose identifier the plan keeps), that
completes without an error diagnostic leaves a state with the identifier of the plan.
A `Read` of a state with the `int32` identifier `v` that completes without an error
diagnostic leaves a state with the identifier of the prior state.  The conversions
`int32 -> int -> int32` on the way through `findTeam` return the identifier itself. -/
theorem team_id_stable (Quote : String → String) (c : Client σ UF) (fuel : Nat) (resp resp1 : Response)
    (w w1 : World σ) (v : Int) (hv : InInt32 v) :
    (∀ (req : UpdateRequest) (prior : teamResourceModel),
      req.Plan.value.ID = TypesInt32.value v →
      resp.State = some prior → prior.ID = req.Plan.value.ID →
      teamResource.Update c fuel req resp w = some (resp1, w1) →
      HasError resp1.Diagnostics = false →
      ∃ state : teamResourceModel, resp1.State = some state ∧ state.ID = req.Plan.value.ID) ∧
    (∀ (req : ReadRequest),
      req.State.value.ID = TypesInt32.value v →
      teamResource.Read Quote c fuel req resp w = some (resp1, w1) →
      HasError resp1.Diagnostics = false →
      ∃ state : teamResourceModel,
        resp1.State = some state ∧ state.ID = req.State.value.ID) ∧
    toInt32 v = v := by
  refine ⟨?_, ?_, toInt32_of_InInt32 v hv⟩
  · intro req prior hplan hprior hpid h herr
    have hval : req.Plan.value.ID.ValueInt32 = v := by rw [hplan]; rfl
    obtain ⟨res, _, _, hcase⟩ := Update_success_inv c fuel req resp resp1 w w1 h herr
    rcases hcase with ⟨_, hst⟩ | ⟨t, _, hid, hst⟩
    · exact ⟨prior, by rw [hst, hprior], hpid⟩
    · refine ⟨_, hst, ?_⟩
      simp only [stateOf, Int32Value]
      rw [hid, hval, toInt32_of_InInt32 v hv, hplan]
  · intro req hstate h herr
    have hval : req.State.value.ID.ValueInt32 = v := by rw [hstate]; rfl
    obtain ⟨t, _, hid, hst⟩ := Read_success_inv Quote c fuel req resp resp1 w w1 h herr
    refine ⟨_, hst, ?_⟩
    simp only [stateOf, Int32Value]
    rw [hid, hval, toInt32_of_InInt32 v hv, hstate]

theorem team_id_stable_witness :
    (InInt32 11 ∧
      ∃ state : teamResourceModel,
        some (⟨TypesInt32.value 11, TypesString.value "renamed",
          [⟨TypesInt32.value 4, TypesString.value "cloud"⟩]⟩ : teamResourceModel) =
            some state ∧
        state.ID = TypesInt32.value 11) ∧
    (∃ state : teamResourceModel,
      some (⟨TypesInt32.value 11, TypesString.value "team", []⟩ : teamResourceModel) =
          some state ∧
        state.ID = TypesInt32.value 11) ∧
    toInt32 11 = 11 :=
  ⟨⟨by decide,
      (team_id_stable plainQuote memClient 5
        ⟨some ⟨TypesInt32.value 11, TypesString.value "team", []⟩, []⟩
        ⟨some ⟨TypesInt32.value 11, TypesString.value "renamed",
          [⟨TypesInt32.value 4, TypesString.value "cloud"⟩]⟩, []⟩
        demoWorld
        ⟨(memClient.UpdateTeam ⟨11, "renamed", [⟨4, "cloud"⟩]⟩ demoTeams).2,
          Call.updateTeam ⟨11, "renamed", [⟨4, "cloud"⟩]⟩ :: pageCalls 1⟩
        11 (by decide)).1
        ⟨⟨⟨TypesInt32.value 11, TypesString.value "renamed",
          [⟨TypesInt32.value 4, TypesString.value "cloud"⟩]⟩, []⟩⟩
        ⟨TypesInt32.value 11, TypesString.value "team", []⟩
        rfl rfl rfl (by decide) rfl⟩,
    (team_id_stable plainQuote memClient 5
        ⟨some ⟨TypesInt32.value 11, TypesString.value "team", []⟩, []⟩
        ⟨some ⟨TypesInt32.value 11, TypesString.value "team", []⟩, []⟩
        demoWorld ⟨demoTeams, pageCalls 1⟩ 11 (by decide)).2.1
        ⟨⟨⟨TypesInt32.value 11, TypesString.value "team", []⟩, []⟩⟩
        rfl (by decide) rfl,
    (team_id_stable plainQuote memClient 5
        ⟨some ⟨TypesInt32.value 11, TypesString.value "team", []⟩, []⟩
        ⟨some ⟨TypesInt32.value 11, TypesString.value "team", []⟩, []⟩
        demoWorld ⟨demoTeams, pageCalls 1⟩ 11 (by decide)).2.2⟩

/-! ## The users data source: verified properties -/

theorem foldl_goAppend {α β : Type} (f : α → β) (xs : List α) (hne : xs ≠ [])
    (acc : Option (List β)) :
    xs.foldl (fun acc x => goAppend acc (f x)) acc = some (acc.getD [] ++ xs.map f) := by
  induction xs generalizing acc with
  | nil => exact absurd rfl hne
  | cons x xs ih =>
    by_cases hxs : xs = []
    · subst hxs
      cases acc <;> simp [goAppend]
    · rw [List.foldl_cons, ih hxs]
      cases acc <;> simp [goAppend]

theorem firstMisfit_none (users : List User) (h : ∀ u ∈ users, u.fitsSchema = true) (i : Nat) :
    firstMisfit i users = none := by
  induction users generalizing i with
  | nil => rfl
  | cons u rest ih =>
    have hu := h u (List.mem_cons_self u rest)
    simp only [firstMisfit, hu, if_true]
    exact ih (fun v hv => h v (List.mem_cons_of_mem u hv)) (i + 1)

/-- C10, as stated, fails, in two runs.  For the record `lateUser`, whose last login
timestamp is `3000000000`, `Read` writes no state and adds the error `Value Conversion
Error`.  For zero users `Read` writes a state whose `users` attribute is null, not the
empty list. -/
theorem UsersRead_projects_every_user_counterexample :
    ((lateLoginClient.ListUsers () ()).1 = Except.ok [lateUser] ∧
      UsersDataSource.Read lateDescribe lateLoginClient () ⟨none, []⟩ () =
        (⟨none, [⟨Severity.Error, some "users[0].last_login_timestamp",
            "Value Conversion Error",
            "Value 3e+09 cannot be represented as a 32-bit integer."⟩]⟩, ()) ∧
      HasError (UsersDataSource.Read lateDescribe lateLoginClient () ⟨none, []⟩ ()).1.Diagnostics
        = true) ∧
    ((emptyClient.ListUsers () ()).1 = Except.ok [] ∧
      UsersDataSource.Read lateDescribe emptyClient () ⟨none, []⟩ () =
        (⟨some ⟨UsersAttribute.null⟩, []⟩, ()) ∧
      (UsersDataSource.Read lateDescribe emptyClient () ⟨none, []⟩ ()).1.State ≠
        some ⟨UsersAttribute.list []⟩) := by
  refine ⟨⟨rfl, by decide, by decide⟩, rfl, by decide, by decide⟩

/-- C10, amended. When the remote list call returns `users` without error and the id,
active flag and last login timestamp of every record lie in the range of `int32`,
`Read` writes a state whose users attribute holds as many objects as there are records,
object `i` with the id, full name, email, active flag, last login timestamp, role and
auth type of record `i`; the diagnostics of the response are left as they were, and for
zero users the attribute holds no object. -/
theorem UsersRead_projects_users_in_range (Describe : Nat → User → String × String)
    (c : Client σ UF) (DefaultListUsersFilters : UF)
    (resp : UsersReadResponse) (s : σ) (users : List AikidoUser)
    (h : (c.ListUsers DefaultListUsersFilters s).1 = Except.ok users)
    (hfit : ∀ u ∈ users, InInt32 u.ID ∧ InInt32 u.Active ∧ InInt32 u.LastLoginTimestamp) :
    ∃ state : UsersState,
      (UsersDataSource.Read Describe c DefaultListUsersFilters resp s).1.State = some state ∧
      state.users.entries.length = users.length ∧
      (∀ (i : Nat) (h1 : i < state.users.entries.length) (h2 : i < users.length),
        (state.users.entries.get ⟨i, h1⟩).ID = (users.get ⟨i, h2⟩).ID ∧
        (state.users.entries.get ⟨i, h1⟩).FullName = (users.get ⟨i, h2⟩).FullName ∧
        (state.users.entries.get ⟨i, h1⟩).Email = (users.get ⟨i, h2⟩).Email ∧
        (state.users.entries.get ⟨i, h1⟩).Active = (users.get ⟨i, h2⟩).Active ∧
        (state.users.entries.get ⟨i, h1⟩).LastLoginTimestamp =
          (users.get ⟨i, h2⟩).LastLoginTimestamp ∧
        (state.users.entries.get ⟨i, h1⟩).Role = (users.get ⟨i, h2⟩).Role ∧
        (state.users.entries.get ⟨i, h1⟩).AuthType = (users.get ⟨i, h2⟩).AuthType) ∧
      (UsersDataSource.Read Describe c DefaultListUsersFilters resp s).1.Diagnostics =
        resp.Diagnostics ∧
      (users = [] → state.users.entries = []) := by
  have hcall : c.ListUsers DefaultListUsersFilters s =
      (Except.ok users, (c.ListUsers DefaultListUsersFilters s).2) := by
    rw [← h]
  by_cases hnil : users = []
  · subst hnil
    refine ⟨⟨UsersAttribute.null⟩, ?_, rfl, ?_, ?_, fun _ => rfl⟩
    · unfold UsersDataSource.Read
      rw [hcall]
      rfl
    · intro i h1 _
      exact absurd h1 (Nat.not_lt_zero i)
    · unfold UsersDataSource.Read
      rw [hcall]
      rfl
  · have hfold := foldl_goAppend (fun (user : AikidoUser) =>
        ({ ID := user.ID
           FullName := user.FullName
           Email := user.Email
           Active := user.Active
           LastLoginTimestamp := user.LastLoginTimestamp
           Role := user.Role
           AuthType := user.AuthType } : User)) users hnil none
    have hmis : firstMisfit 0 (users.map (fun (user : AikidoUser) =>
        ({ ID := user.ID
           FullName := user.FullName
           Email := user.Email
           Active := user.Active
           LastLoginTimestamp := user.LastLoginTimestamp
           Role := user.Role
           AuthType := user.AuthType } : User))) = none := by
      apply firstMisfit_none
      intro v hv
      obtain ⟨u, hu, rfl⟩ := List.mem_map.mp hv
      obtain ⟨h1, h2, h3⟩ := hfit u hu
      simp [User.fitsSchema, h1, h2, h3]
    simp only [Option.getD_none, List.nil_append] at hfold
    refine ⟨⟨UsersAttribute.list (users.map (fun (user : AikidoUser) =>
        ({ ID := user.ID
           FullName := user.FullName
           Email := user.Email
           Active := user.Active
           LastLoginTimestamp := user.LastLoginTimestamp
           Role := user.Role
           AuthType := user.AuthType } : User)))⟩, ?_, ?_, ?_, ?_, ?_⟩
    · unfold UsersDataSource.Read
      rw [hcall]
      simp only [UsersReadResponse.Set, hfold, hmis]
    · simp [UsersAttribute.entries]
    · intro i h1 h2
      simp only [UsersAttribute.entries, List.get_eq_getElem, List.getElem_map]
      exact ⟨trivial, trivial, trivial, trivial, trivial, trivial, trivial⟩
    · unfold UsersDataSource.Read
      rw [hcall]
      simp only [UsersReadResponse.Set, hfold, hmis, Append_nil]
    · intro he
      exact absurd he hnil

theorem UsersRead_projects_users_in_range_witness :
    ((memClient.ListUsers () demoTeams).1 = Except.ok demoUsers ∧
      (∀ u ∈ demoUsers, InInt32 u.ID ∧ InInt32 u.Active ∧ InInt32 u.LastLoginTimestamp) ∧
      ∃ state : UsersState,
        (UsersDataSource.Read lateDescribe memClient () ⟨none, []⟩ demoTeams).1.State =
          some state ∧
        state.users.entries.length = demoUsers.length) ∧
    ((emptyClient.ListUsers () ()).1 = Except.ok [] ∧
      ∃ state : UsersState,
        (UsersDataSource.Read lateDescribe emptyClient () ⟨none, []⟩ ()).1.State =
          some state ∧
        state.users.entries = [] ∧
        (UsersDataSource.Read lateDescribe emptyClient () ⟨none, []⟩ ()).1.Diagnostics = []) := by
  have hfit : ∀ u ∈ demoUsers,
      InInt32 u.ID ∧ InInt32 u.Active ∧ InInt32 u.LastLoginTimestamp := by decide
  obtain ⟨state, hst, hlen, _, _, _⟩ :=
    UsersRead_projects_users_in_range lateDescribe memClient () ⟨none, []⟩ demoTeams
      demoUsers rfl hfit
  obtain ⟨state0, hst0, _, _, hd0, hnil0⟩ :=
    UsersRead_projects_users_in_range lateDescribe emptyClient () ⟨none, []⟩ () [] rfl
      (fun u hu => absurd hu (List.not_mem_nil u))
  exact ⟨⟨rfl, hfit, state, hst, hlen⟩, rfl, state0, hst0, hnil0 rfl, hd0⟩

end Aikido
